import Mathlib

/-!
Verification of the ssh_manager repository core logic.

Python strings are modelled as `List Char` (`Str`), Python's fallible
operations (`int(...)`, `str.format`, filesystem operations that raise) as
`Except`-valued or pair-of-result-and-error functions.  Every definition
mirrors the corresponding Python function from the repository source;
doc comments name the source file and lines.
-/

set_option maxHeartbeats 1000000
set_option maxRecDepth 10000

/-- Python strings, modelled as lists of characters. -/
abbrev Str := List Char

/-- Coerce a Lean string literal to the `Str` model. -/
def ofStr (s : String) : Str := s.data

/-- The characters Python's `str.strip()` removes by default. -/
def isPySpace (c : Char) : Bool :=
  c == ' ' || c == '\t' || c == '\n' || c == '\r' || c == '\x0b' || c == '\x0c'

/-- Model of Python `str.strip()` (no arguments): trim whitespace at both ends. -/
def pyStrip (s : Str) : Str :=
  (((s.dropWhile isPySpace).reverse).dropWhile isPySpace).reverse

/-- Model of Python `str.startswith(pre)`. -/
def startsW : Str → Str → Bool
  | _, [] => true
  | [], _ :: _ => false
  | c :: s, p :: ps => c == p && startsW s ps

/-- Model of Python's substring test `sub in s`. -/
def containsSub (s sub : Str) : Bool :=
  startsW s sub ||
    match s with
    | [] => false
    | _ :: t => containsSub t sub

/-- Worker for `pySplit`: accumulates the current token (reversed) in `acc`.
The `Nat` argument is recursion fuel; `pySplit` supplies `s.length`, which is
always sufficient for a non-empty separator, so the fuel-exhausted branch is
unreachable there (proved in the lemmas below). -/
def pySplitF (sep : Str) : Nat → Str → Str → List Str
  | _, [], acc => [acc.reverse]
  | 0, s, acc => [acc.reverse ++ s]
  | n + 1, c :: rest, acc =>
    if startsW (c :: rest) sep then
      acc.reverse :: pySplitF sep n (rest.drop (sep.length - 1)) []
    else
      pySplitF sep n rest (c :: acc)

/-- Model of Python `str.split(sep)` for a non-empty separator string. -/
def pySplit (s sep : Str) : List Str := pySplitF sep s.length s []

/-- Splitting on a single separator character, structurally recursive.
`pySplit s [c] = pySplitC c s` is proved below and used in proofs. -/
def pySplitC (sep : Char) : Str → List Str
  | [] => [[]]
  | c :: s =>
    if c == sep then [] :: pySplitC sep s
    else
      match pySplitC sep s with
      | [] => [[c]]
      | t :: ts => (c :: t) :: ts

/-- Worker for `pySplitWs`. -/
def pySplitWsGo : Str → Str → List Str
  | [], acc => if acc == [] then [] else [acc.reverse]
  | c :: s, acc =>
    if isPySpace c then
      if acc == [] then pySplitWsGo s [] else acc.reverse :: pySplitWsGo s []
    else
      pySplitWsGo s (c :: acc)

/-- Model of Python `str.split()` (no arguments): split on whitespace runs,
discarding empty tokens. -/
def pySplitWs (s : Str) : List Str := pySplitWsGo s []

/-- Python `lst[1]`.  Call sites in the modelled code are guarded by a
`startswith` test that guarantees the index exists, so the default is
never reached there. -/
def idx1 (l : List Str) : Str := l.getD 1 []

/-- Numeric value of a decimal digit string (used under an all-digits guard). -/
def digitsVal (s : Str) : Nat :=
  s.foldl (fun a c => 10 * a + (c.toNat - 48)) 0

/-- Model of Python `int(s)` for the string arguments this program produces
and consumes: optional surrounding whitespace, an optional sign, then decimal
digits; anything else raises `ValueError` (modelled as `.error ()`). -/
def pyInt (s : Str) : Except Unit Int :=
  match pyStrip s with
  | [] => .error ()
  | c :: ds =>
    if c == '-' then
      if ds ≠ [] ∧ ds.all Char.isDigit then .ok (-(digitsVal ds : Int)) else .error ()
    else if c == '+' then
      if ds ≠ [] ∧ ds.all Char.isDigit then .ok (digitsVal ds : Int) else .error ()
    else
      if (c :: ds).all Char.isDigit then .ok (digitsVal (c :: ds) : Int) else .error ()

/-- Little-endian base-10 digits of `n`, with recursion fuel (`natRepr`
supplies `n` itself, which always suffices).  Agrees with `Nat.digits 10`
(proved below). -/
def natDigitsF : Nat → Nat → List Nat
  | _, 0 => []
  | 0, _ + 1 => []
  | fuel + 1, n + 1 => ((n + 1) % 10) :: natDigitsF fuel ((n + 1) / 10)

/-- Decimal representation of a natural number (Python `str(n)` for `n ≥ 0`). -/
def natRepr (n : Nat) : Str :=
  if n = 0 then ['0'] else ((natDigitsF n n).map Nat.digitChar).reverse

/-- Decimal representation of an integer (Python `str(n)` / f-string interpolation). -/
def intRepr (n : Int) : Str :=
  if n < 0 then '-' :: natRepr n.natAbs else natRepr n.toNat

/-- Model of Python `"\n".join(lines)`. -/
def joinNl : List Str → Str
  | [] => []
  | [l] => l
  | l :: ls => l ++ '\n' :: joinNl ls

/-! ## The `Connection` data model (src/core/connection.py) -/

/-- One SSH connection, mirroring the Python dataclass `Connection`
(src/core/connection.py lines 14–41), including its field defaults. -/
structure Connection where
  name : Str
  hostname : Str
  user : Str
  port : Int := 22
  identity_file : Str := []
  folder : Str := ofStr "personal"
  proxy_jump : Str := []
  local_forwards : List (Int × Str × Int) := []
  remote_forwards : List (Int × Str × Int) := []
  color_tag : Str := []
deriving DecidableEq

def hostKw : Str := ofStr "Host "
def hostNameKw : Str := ofStr "HostName "
def userKw : Str := ofStr "User "
def portKw : Str := ofStr "Port "
def identityKw : Str := ofStr "IdentityFile "
def proxyKw : Str := ofStr "ProxyJump "
def localFKw : Str := ofStr "LocalForward "
def remoteFKw : Str := ofStr "RemoteForward "

/-- The metadata comment prefix `# SSH Manager Metadata: `. -/
def metaPre : Str := ofStr "# SSH Manager Metadata: "

/-- Model of `json.dumps({"color": tag})` for tags containing no character
that JSON escapes (the program only ever writes the plain tags
`production`, `staging`, `development`). -/
def jsonColorDump (tag : Str) : Str :=
  ofStr "\x7b\"color\": \"" ++ tag ++ ofStr "\"\x7d"

/-- The metadata comment line emitted by `to_ssh_config` (line 55). -/
def metaLine (tag : Str) : Str := metaPre ++ jsonColorDump tag

/-- The line `    LocalForward {local_port} {remote_host}:{remote_port}` (line 74). -/
def lfLine (f : Int × Str × Int) : Str :=
  ofStr "    LocalForward " ++ (intRepr f.1 ++ ' ' :: (f.2.1 ++ ':' :: intRepr f.2.2))

/-- The line `    RemoteForward {remote_port} {local_host}:{local_port}` (line 78). -/
def rfLine (f : Int × Str × Int) : Str :=
  ofStr "    RemoteForward " ++ (intRepr f.1 ++ ' ' :: (f.2.1 ++ ':' :: intRepr f.2.2))

/-- The `lines` list built by `Connection.to_ssh_config`
(src/core/connection.py lines 43–83). -/
def toLines (c : Connection) : List Str :=
  (if c.color_tag ≠ [] then [metaLine c.color_tag, []] else []) ++
  ([hostKw ++ c.name,
    ofStr "    HostName " ++ c.hostname,
    ofStr "    User " ++ c.user,
    ofStr "    Port " ++ intRepr c.port] ++
   (if c.identity_file ≠ [] then [ofStr "    IdentityFile " ++ c.identity_file] else []) ++
   (if c.proxy_jump ≠ [] then [ofStr "    ProxyJump " ++ c.proxy_jump] else []) ++
   c.local_forwards.map lfLine ++
   c.remote_forwards.map rfLine ++
   [ofStr "    ServerAliveInterval 60",
    ofStr "    ServerAliveCountMax 3",
    ofStr "    ConnectTimeout 10"])

/-- Model of `Connection.to_ssh_config` (src/core/connection.py lines 43–85):
`"\n".join(lines) + "\n"`. -/
def to_ssh_config (c : Connection) : Str := joinNl (toLines c) ++ ['\n']

/-- Longest prefix of `s` ending in `\x7d`, i.e. everything up to the last
closing brace (`none` when `s` has no closing brace).  This is what the
greedy `{.*}` of the metadata regular expression captures after the brace. -/
def uptoLastBrace : Str → Option Str
  | [] => none
  | c :: t =>
    match uptoLastBrace t with
    | some r => some (c :: r)
    | none => if c == '\x7d' then some [c] else none

/-- The literal part of the metadata pattern up to and including the
opening brace. -/
def metaPat : Str := metaPre ++ ['\x7b']

/-- Model of `re.search(r'# SSH Manager Metadata: (\x7b.*\x7d)', content)`
(src/core/connection.py line 102): scan for the leftmost position where the
literal prefix followed by `\x7b` occurs, then capture greedily up to the last
`\x7d` on that line; if that position has no closing brace before the next
newline, keep scanning. -/
def searchMeta : Str → Option Str
  | [] => none
  | c :: s =>
    if startsW (c :: s) metaPat then
      match uptoLastBrace (((c :: s).drop metaPat.length).takeWhile (fun ch => !(ch == '\n'))) with
      | some grp => some ('\x7b' :: grp)
      | none => searchMeta s
    else searchMeta s

def jsonPre : Str := ofStr "\x7b\"color\": \""

/-- Model of `json.loads(group)` followed by `.get("color", "")`
(src/core/connection.py lines 104–108), on the subset of JSON this program
ever writes: a one-key object with key `color` and an unescaped string value.
Any other shape is mapped to the default `""`, matching the code, which
silently ignores decode failures and missing keys. -/
def parseColorJson (g : Str) : Str :=
  if startsW g jsonPre then
    let rest := g.drop jsonPre.length
    let tag := rest.takeWhile (fun ch => !(ch == '"'))
    if rest.drop tag.length == ['"', '\x7d'] && tag.all (fun ch => !(ch == '\\')) then
      tag
    else []
  else []

/-- The color tag extracted from a config text (lines 100–108). -/
def extractColor (content : Str) : Str :=
  match searchMeta content with
  | some g => parseColorJson g
  | none => []

/-- The local parser state of `Connection.from_ssh_config`
(src/core/connection.py lines 110–117): the mutable locals of the loop. -/
structure ParseSt where
  name : Str
  hostname : Str
  user : Str
  port : Int
  identity_file : Str
  proxy_jump : Str
  local_forwards : List (Int × Str × Int)
  remote_forwards : List (Int × Str × Int)
deriving DecidableEq

/-- One iteration of the line loop of `Connection.from_ssh_config`
(src/core/connection.py lines 119–163).  `int(...)` failures propagate as
`.error` (an uncaught `ValueError` in Python). -/
def processLine (st : ParseSt) (raw : Str) : Except Unit ParseSt :=
  let line := pyStrip raw
  if line == [] then .ok st
  else if startsW line (ofStr "#") then .ok st
  else if startsW line hostKw && st.name == [] then
    .ok { st with name := pyStrip (idx1 (pySplit line hostKw)) }
  else if startsW line hostNameKw then
    .ok { st with hostname := pyStrip (idx1 (pySplit line hostNameKw)) }
  else if startsW line userKw then
    .ok { st with user := pyStrip (idx1 (pySplit line userKw)) }
  else if startsW line portKw then
    match pyInt (pyStrip (idx1 (pySplit line portKw))) with
    | .ok p => .ok { st with port := p }
    | .error e => .error e
  else if startsW line identityKw then
    .ok { st with identity_file := pyStrip (idx1 (pySplit line identityKw)) }
  else if startsW line proxyKw then
    .ok { st with proxy_jump := pyStrip (idx1 (pySplit line proxyKw)) }
  else if startsW line localFKw then
    match pySplitWs (pyStrip (idx1 (pySplit line localFKw))) with
    | [p0, p1] =>
      match pyInt p0 with
      | .error e => .error e
      | .ok lp =>
        match pySplit p1 (ofStr ":") with
        | [rh, rp] =>
          match pyInt rp with
          | .error e => .error e
          | .ok rpn => .ok { st with local_forwards := st.local_forwards ++ [(lp, rh, rpn)] }
        | _ => .ok st
    | _ => .ok st
  else if startsW line remoteFKw then
    match pySplitWs (pyStrip (idx1 (pySplit line remoteFKw))) with
    | [p0, p1] =>
      match pyInt p0 with
      | .error e => .error e
      | .ok rp =>
        match pySplit p1 (ofStr ":") with
        | [lh, lp] =>
          match pyInt lp with
          | .error e => .error e
          | .ok lpn => .ok { st with remote_forwards := st.remote_forwards ++ [(rp, lh, lpn)] }
        | _ => .ok st
    | _ => .ok st
  else .ok st

/-- Initial parser state: `name` from the argument, defaults for the rest. -/
def initSt (name : Str) : ParseSt :=
  { name := name, hostname := [], user := [], port := 22, identity_file := [],
    proxy_jump := [], local_forwards := [], remote_forwards := [] }

/-- Model of `Connection.from_ssh_config(content, name, folder)`
(src/core/connection.py lines 87–176).  Returns `.error ()` exactly when an
unguarded `int(...)` conversion raises `ValueError`. -/
def from_ssh_config (content name folder : Str) : Except Unit Connection :=
  match (pySplit content (ofStr "\n")).foldlM processLine (initSt name) with
  | .error e => .error e
  | .ok st =>
    .ok { name := if st.name == [] then ofStr "unnamed" else st.name,
          hostname := st.hostname,
          user := st.user,
          port := st.port,
          identity_file := st.identity_file,
          folder := folder,
          proxy_jump := st.proxy_jump,
          local_forwards := st.local_forwards,
          remote_forwards := st.remote_forwards,
          color_tag := extractColor content }

/-- A character of the class `[a-zA-Z0-9_-]`. -/
def nameChar (c : Char) : Bool := c.isAlphanum || c == '_' || c == '-'

/-- Model of `re.match(r'^[a-zA-Z0-9_-]+\x24', s)` viewed as a Boolean:
in Python's `re`, `\x24` also matches just before a single trailing newline,
so a name consisting of valid characters followed by one final `\n` matches
as well. -/
def reMatchNamePat (s : Str) : Bool :=
  (!s.isEmpty && s.all nameChar) ||
  (s.getLast? == some '\n' && (!s.dropLast.isEmpty && s.dropLast.all nameChar))

def msgNameRequired : Str := ofStr "Connection name is required"
def msgNamePattern : Str :=
  ofStr "Connection name can only contain letters, numbers, dashes, and underscores"
def msgHostnameRequired : Str := ofStr "Hostname is required"
def msgUserRequired : Str := ofStr "Username is required"
def msgPortRange : Str := ofStr "Port must be between 1 and 65535"
def msgInvalidFolder : Str := ofStr "Invalid folder path"

/-- Model of `Connection.validate` (src/core/connection.py lines 178–209). -/
def validate (c : Connection) : List Str :=
  (if c.name == [] then [msgNameRequired]
   else if !reMatchNamePat c.name then [msgNamePattern]
   else []) ++
  (if c.hostname == [] then [msgHostnameRequired] else []) ++
  (if c.user == [] then [msgUserRequired] else []) ++
  (if !(decide (1 ≤ c.port) && decide (c.port ≤ 65535)) then [msgPortRange] else []) ++
  (if containsSub c.folder (ofStr "..") || startsW c.folder (ofStr "/") then [msgInvalidFolder]
   else [])

/-! ## ConfigManager (src/core/config_manager.py)

The managed tree is modelled as an association list of file paths (relative
to `base_path`) to file contents, plus a list of existing directories.
`pathlib` path concatenation `base / folder / f"{name}.conf"` becomes string
concatenation with `/` separators.  Operations that raise in Python return
the untouched state together with `some error`, mirroring the fact that the
Python code raises before performing any mutation. -/

/-- Relative path `<folder>/<name>.conf` of a connection file. -/
def pathOf (folder name : Str) : Str := folder ++ '/' :: (name ++ ofStr ".conf")

/-- Lookup in an association list keyed by strings (Python dict access /
file-by-path access). -/
def dictGet {β : Type} : List (Str × β) → Str → Option β
  | [], _ => none
  | e :: t, p => if e.1 == p then some e.2 else dictGet t p

/-- The filesystem state seen by `ConfigManager`: existing directories and
`.conf` files, both relative to `base_path`. -/
structure FS where
  dirs : List Str
  files : List (Str × Str)
deriving DecidableEq

inductive MoveErr where
  | srcNotFound
  | destExists
deriving DecidableEq

inductive DelErr where
  | notFound
  | notEmpty
deriving DecidableEq

/-- The proper path prefixes generated while walking the segments of a
folder path: `a/b/c ↦ [a, a/b, a/b/c]`. -/
def prefixesGo (cur : Str) : List Str → List Str
  | [] => []
  | s :: rest =>
    let cur2 := if cur == [] then s else cur ++ '/' :: s
    cur2 :: prefixesGo cur2 rest

/-- Model of `Path.mkdir(parents=True, exist_ok=True)`: add the folder and
all its ancestors to the directory list. -/
def mkdirParents (dirs : List Str) (folder : Str) : List Str :=
  dirs ++ (prefixesGo [] (pySplitC '/' folder)).filter (fun d => !(dirs.contains d))

/-- Model of `ConfigManager.move_connection` (src/core/config_manager.py lines
281–310).  Checks source existence, then destination conflict, and only then
creates the destination folder, moves the file and updates `conn.folder`. -/
def move_connection (fs : FS) (conn : Connection) (new_folder : Str) :
    FS × Connection × Option MoveErr :=
  let old_file := pathOf conn.folder conn.name
  let new_file := pathOf new_folder conn.name
  if (dictGet fs.files old_file).isNone then (fs, conn, some .srcNotFound)
  else if (dictGet fs.files new_file).isSome then (fs, conn, some .destExists)
  else
    ({ dirs := mkdirParents fs.dirs new_folder,
       files := (fs.files.filter (fun e => !(e.1 == old_file))) ++
         [(new_file, (dictGet fs.files old_file).getD [])] },
     { conn with folder := new_folder }, none)

/-- Model of `ConfigManager.delete_connection` (src/core/config_manager.py lines
213–229): raise not-found when the file is absent, otherwise unlink it. -/
def delete_connection (fs : List (Str × Str)) (folder name : Str) :
    List (Str × Str) × Option DelErr :=
  let config_file := pathOf folder name
  if (dictGet fs config_file).isNone then (fs, some .notFound)
  else (fs.filter (fun e => !(e.1 == config_file)), none)

/-- Holds when `p` lies strictly below directory `folder`. -/
def isUnder (folder p : Str) : Bool := startsW p (folder ++ ['/'])

/-- Holds when `p` is a direct child of `folder` (what `folder.iterdir()` yields). -/
def directChild (folder p : Str) : Bool :=
  isUnder folder p && !((p.drop (folder.length + 1)).contains '/')

/-- Model of `any(folder.iterdir())`: the folder has at least one direct entry. -/
def folderNonEmpty (fs : FS) (folder : Str) : Bool :=
  fs.dirs.any (fun d => directChild folder d) ||
    fs.files.any (fun e => directChild folder e.1)

/-- Model of `ConfigManager.delete_folder` (src/core/config_manager.py lines 322–344):
not-found if absent; "not empty" unless `recursive`; `shutil.rmtree`
removes the whole subtree, `rmdir` removes the (empty) directory. -/
def delete_folder (fs : FS) (folder_path : Str) (recursive : Bool) : FS × Option DelErr :=
  if !(fs.dirs.contains folder_path) then (fs, some .notFound)
  else if !recursive && folderNonEmpty fs folder_path then (fs, some .notEmpty)
  else if recursive then
    ({ dirs := fs.dirs.filter (fun d => !(d == folder_path || isUnder folder_path d)),
       files := fs.files.filter (fun e => !(isUnder folder_path e.1)) }, none)
  else
    ({ dirs := fs.dirs.filter (fun d => !(d == folder_path)), files := fs.files }, none)

/-- The Include line `Include <base_path>/**/*.conf` written by
`add_include_statement` (src/core/config_manager.py line 146). -/
def includeLine (bp : Str) : Str := ofStr "Include " ++ bp ++ ofStr "/**/*.conf"

/-- The comment header written next to the Include line. -/
def hdrLine : Str := ofStr "# SSH Manager - Auto-generated connections"

/-- Model of `ConfigManager.add_include_statement` (src/core/config_manager.py lines
139–165), acting on the primary SSH config file content (`none` when the
file does not exist).  Returns the new content and the `True`/`False`
result.  This is the only place `initialize()` writes that file. -/
def add_include_statement (bp : Str) (cfg : Option Str) : Str × Bool :=
  match cfg with
  | none => (hdrLine ++ '\n' :: (includeLine bp ++ ['\n']), true)
  | some content =>
    if containsSub content (includeLine bp) then (content, false)
    else
      let c := if content.getLast? == some '\n' then content else content ++ ['\n']
      (c ++ '\n' :: (hdrLine ++ '\n' :: (includeLine bp ++ ['\n'])), true)

/-- Iterate the effect of `initialize()` on the primary SSH config file
`n` times. -/
def initIncludeIter (bp : Str) : Nat → Option Str → Option Str
  | 0, cfg => cfg
  | n + 1, cfg => initIncludeIter bp n (some (add_include_statement bp cfg).1)

/-- Number of lines of `content` equal to the SSH Manager Include line. -/
def countInc (bp : Str) (content : Str) : Nat :=
  (pySplitC '\n' content).countP (fun l => l == includeLine bp)

/-! ## FileUtils (src/src/ssh_manager/backend/file_utils.py) -/

/-- Model of `group_path.strip('/')`. -/
def stripSlashes (g : Str) : Str :=
  ((g.dropWhile (fun c => c == '/')).reverse.dropWhile (fun c => c == '/')).reverse

/-- Model of `FileUtils.parse_group_path` (file_utils.py lines 24–52), reduced to the
segment list the path helpers consume. -/
def parse_group_path (g : Str) : Except Unit (List Str) :=
  if g == [] then .error ()
  else
    let normalized := stripSlashes g
    if normalized == [] then .error ()
    else .ok (pySplit normalized (ofStr "/"))

/-- Join path segments with `/` (pathlib `Path(*segments)` drops empty
components, which `parse_group_path` can produce from doubled slashes). -/
def joinSegs : List Str → Str
  | [] => []
  | [s] => s
  | s :: rest => s ++ '/' :: joinSegs rest

/-- Model of `FileUtils.get_connection_file_path` (file_utils.py lines 54–62), as a
path relative to `ssh_manager_dir`. -/
def fu_connection_path (g name : Str) : Except Unit Str :=
  match parse_group_path g with
  | .error e => .error e
  | .ok segs =>
    .ok (joinSegs (ofStr "config" :: segs.filter (fun s => !(s == []))) ++
      '/' :: (name ++ ofStr ".conf"))

/-- Model of `FileUtils.delete_config_file` (file_utils.py lines 109–113): unlink the
file if it exists — and silently do nothing otherwise. -/
def delete_config_file (fs : List (Str × Str)) (g name : Str) :
    Except Unit (List (Str × Str)) :=
  match fu_connection_path g name with
  | .error e => .error e
  | .ok p =>
    if (dictGet fs p).isSome then .ok (fs.filter (fun e => !(e.1 == p))) else .ok fs

/-- The `user_line` template variable of `SSHManager.add_connection`
(src/src/ssh_manager/backend/ssh_manager.py line 91):
`f'    User {user}' if user else ''`. -/
def user_line (user : Str) : Str :=
  if user == [] then [] else ofStr "    User " ++ user

/-! ## Templates (src/src/ssh_manager/backend/templates.py) -/

structure Template where
  name : Str
  description : Str
  content : Str
deriving DecidableEq

def basicServerContent : Str :=
  ofStr "# Basic SSH Connection\nHost \x7bname\x7d\n    HostName \x7bhost\x7d\n\x7buser_line\x7d\n    Port \x7bport\x7d\n    IdentityFile \x7bkey_file\x7d\n    \n    # Essential Connection Settings\n    ServerAliveInterval \x7bserver_alive_interval\x7d\n    ServerAliveCountMax \x7bserver_alive_count_max\x7d\n    ConnectTimeout \x7bconnect_timeout\x7d\n    Compression \x7bcompression\x7d\n    StrictHostKeyChecking \x7bstrict_host_key_checking\x7d\n    \n    # Developer Features\n    ControlMaster \x7bcontrol_master\x7d\n    ControlPath \x7bcontrol_path\x7d\n    ControlPersist \x7bcontrol_persist\x7d\n    ForwardX11 \x7bforward_x11\x7d\n    ForwardAgent \x7bforward_agent\x7d\n"

def awsEc2Content : Str :=
  ofStr "# AWS EC2 Instance\nHost \x7bname\x7d\n    HostName \x7bhost\x7d\n\x7buser_line\x7d\n    Port \x7bport\x7d\n    IdentityFile \x7bkey_file\x7d\n    \n    # AWS EC2 Optimized Settings\n    ServerAliveInterval 60\n    ServerAliveCountMax 3\n    ConnectTimeout 30\n    Compression yes\n    StrictHostKeyChecking no\n    UserKnownHostsFile /dev/null\n    \n    # Connection Multiplexing for Speed\n    ControlMaster auto\n    ControlPath ~/.ssh/control-%h-%p-%r\n    ControlPersist 10m\n"

def jumpHostContent : Str :=
  ofStr "# Jump Host Configuration\nHost \x7bname\x7d\n    HostName \x7bhost\x7d\n\x7buser_line\x7d\n    Port \x7bport\x7d\n    IdentityFile \x7bkey_file\x7d\n    ProxyJump \x7bjump_host\x7d\n    \n    # Jump Host Settings\n    ServerAliveInterval \x7bserver_alive_interval\x7d\n    ServerAliveCountMax \x7bserver_alive_count_max\x7d\n    ConnectTimeout \x7bconnect_timeout\x7d\n    Compression \x7bcompression\x7d\n    StrictHostKeyChecking \x7bstrict_host_key_checking\x7d\n    \n    # Connection Management\n    ControlMaster \x7bcontrol_master\x7d\n    ControlPath \x7bcontrol_path\x7d\n    ControlPersist \x7bcontrol_persist\x7d\n"

def developerContent : Str :=
  ofStr "# Developer Workstation\nHost \x7bname\x7d\n    HostName \x7bhost\x7d\n\x7buser_line\x7d\n    Port \x7bport\x7d\n    IdentityFile \x7bkey_file\x7d\n    \n    # Developer Features\n    ForwardX11 yes\n    ForwardX11Trusted yes\n    ForwardAgent yes\n    \n    # Port Forwarding\n\x7blocal_forwards\x7d\n\x7bremote_forwards\x7d\n\x7bdynamic_forward\x7d\n    \n    # Connection Settings\n    ServerAliveInterval \x7bserver_alive_interval\x7d\n    ServerAliveCountMax \x7bserver_alive_count_max\x7d\n    ConnectTimeout \x7bconnect_timeout\x7d\n    Compression \x7bcompression\x7d\n    StrictHostKeyChecking \x7bstrict_host_key_checking\x7d\n    \n    # Connection Multiplexing\n    ControlMaster \x7bcontrol_master\x7d\n    ControlPath \x7bcontrol_path\x7d\n    ControlPersist \x7bcontrol_persist\x7d\n"

/-- Model of `Templates.default_templates` (templates.py lines 13–123). -/
def default_templates : List (Str × Template) :=
  [(ofStr "basic-server",
    { name := ofStr "Basic Server",
      description := ofStr "Simple SSH connection with username and host",
      content := basicServerContent }),
   (ofStr "aws-ec2",
    { name := ofStr "AWS EC2 Instance",
      description := ofStr "AWS EC2 instance with key-based authentication",
      content := awsEc2Content }),
   (ofStr "jump-host",
    { name := ofStr "Jump Host (Bastion)",
      description := ofStr "Connection through a jump host or bastion server",
      content := jumpHostContent }),
   (ofStr "developer",
    { name := ofStr "Developer Workstation",
      description := ofStr "Development server with X11 forwarding and port tunneling",
      content := developerContent })]

/-- Model of `Templates.get_template` (templates.py lines 133–137). -/
def get_template (tid : Str) : Except Unit Template :=
  match dictGet default_templates tid with
  | none => .error ()
  | some t => .ok t

/-- Model of Python `str.format(**vars)` on the template texts: literal
`{key}` substitution; `{{`/`}}` escapes; a reference to a key missing from
`vars` is a `KeyError` and a stray brace a `ValueError`, both modelled as
`.error ()`.  The `Nat` argument is recursion fuel; `pyFormat` supplies the
string length, which always suffices. -/
def pyFormatF (vars : List (Str × Str)) : Nat → Str → Except Unit Str
  | _, [] => .ok []
  | 0, _ :: _ => .error ()
  | fuel + 1, c :: rest =>
    if c == '\x7b' then
      if rest.head? == some '\x7b' then
        match pyFormatF vars fuel (rest.drop 1) with
        | .ok out => .ok ('\x7b' :: out)
        | .error e => .error e
      else
        let key := rest.takeWhile (fun ch => !(ch == '\x7d'))
        if (rest.drop key.length).head? == some '\x7d' then
          match dictGet vars key with
          | some v =>
            match pyFormatF vars fuel (rest.drop (key.length + 1)) with
            | .ok out => .ok (v ++ out)
            | .error e => .error e
          | none => .error ()
        else .error ()
    else if c == '\x7d' then
      if rest.head? == some '\x7d' then
        match pyFormatF vars fuel (rest.drop 1) with
        | .ok out => .ok ('\x7d' :: out)
        | .error e => .error e
      else .error ()
    else
      match pyFormatF vars fuel rest with
      | .ok out => .ok (c :: out)
      | .error e => .error e

def pyFormat (vars : List (Str × Str)) (s : Str) : Except Unit Str :=
  pyFormatF vars s.length s

/-- Static scan of a template text: `none` when the brace structure is
malformed, otherwise the list of referenced placeholder keys, in order. -/
def scanTemplateF : Nat → Str → Option (List Str)
  | _, [] => some []
  | 0, _ :: _ => none
  | fuel + 1, c :: rest =>
    if c == '\x7b' then
      if rest.head? == some '\x7b' then scanTemplateF fuel (rest.drop 1)
      else
        let key := rest.takeWhile (fun ch => !(ch == '\x7d'))
        if (rest.drop key.length).head? == some '\x7d' then
          match scanTemplateF fuel (rest.drop (key.length + 1)) with
          | some ks => some (key :: ks)
          | none => none
        else none
    else if c == '\x7d' then
      if rest.head? == some '\x7d' then scanTemplateF fuel (rest.drop 1) else none
    else scanTemplateF fuel rest

def scanTemplate (s : Str) : Option (List Str) := scanTemplateF s.length s

/-- The placeholder keys referenced by a template text. -/
def refsOf (s : Str) : List Str := (scanTemplate s).getD []

/-- Model of `Templates.create_from_template` (templates.py lines 139–148). -/
def create_from_template (tid : Str) (vars : List (Str × Str)) : Except Unit Str :=
  match get_template tid with
  | .error e => .error e
  | .ok t => pyFormat vars t.content

/-- Characters considered non-exotic for the round-trip claim: the letters,
digits and the punctuation that actually occurs in hostnames, user names,
key paths, jump hosts and color tags. -/
def simpleChar (c : Char) : Bool :=
  c.isAlphanum || c == '.' || c == '-' || c == '_' || c == '/' || c == '~' || c == '@'

/-- Every character of `s` is non-exotic. -/
def goodStr (s : Str) : Bool := s.all simpleChar

/-- A concrete record exercising every field, used as witness input. -/
def rC1 : Connection :=
  { name := ofStr "prod-api", hostname := ofStr "192.168.1.50", user := ofStr "deploy",
    port := 2222, identity_file := ofStr "~/.ssh/id_ed25519", folder := ofStr "work/acme",
    proxy_jump := ofStr "bastion.example.com",
    local_forwards := [(8080, ofStr "localhost", 80), (5432, ofStr "db.internal", 5432)],
    remote_forwards := [(3000, ofStr "localhost", 3000)],
    color_tag := ofStr "production" }

/-- A plain valid record, used as witness input for the validation claim. -/
def rC2 : Connection :=
  { name := ofStr "db1", hostname := ofStr "10.0.0.5", user := ofStr "admin",
    port := 2222, folder := ofStr "work/db" }

/-- A record with a color tag, used for the serialization-shape claims. -/
def rC7 : Connection :=
  { name := ofStr "web", hostname := ofStr "h1", user := ofStr "root",
    color_tag := ofStr "production" }

/-- A record with an empty user, used for the `User`-line claim. -/
def rC8 : Connection :=
  { name := ofStr "a", hostname := ofStr "h", user := [] }

/-- A filesystem state with a connection in `work` and a conflicting file in
`personal`, used as witness input for the move claim. -/
def fsC4 : FS :=
  { dirs := [ofStr "work", ofStr "personal"],
    files := [(pathOf (ofStr "work") (ofStr "A"), ofStr "contentA"),
              (pathOf (ofStr "personal") (ofStr "A"), ofStr "contentB")] }

/-- A filesystem state with a nested non-empty folder, used as witness input
for the folder-deletion claim. -/
def fsC6 : FS :=
  { dirs := [ofStr "work", ofStr "work/sub", ofStr "personal"],
    files := [(pathOf (ofStr "work") (ofStr "A"), ofStr "x"),
              (pathOf (ofStr "work/sub") (ofStr "B"), ofStr "y")] }

/-- A complete variable assignment for the `basic-server` template. -/
def c9vars : List (Str × Str) :=
  [(ofStr "name", ofStr "db1"), (ofStr "host", ofStr "10.0.0.5"),
   (ofStr "user_line", ofStr "    User admin"), (ofStr "port", ofStr "22"),
   (ofStr "key_file", ofStr "~/.ssh/id_ed25519"),
   (ofStr "server_alive_interval", ofStr "60"),
   (ofStr "server_alive_count_max", ofStr "3"),
   (ofStr "connect_timeout", ofStr "10"), (ofStr "compression", ofStr "yes"),
   (ofStr "strict_host_key_checking", ofStr "ask"),
   (ofStr "control_master", ofStr "auto"),
   (ofStr "control_path", ofStr "~/.ssh/control"),
   (ofStr "control_persist", ofStr "10m"), (ofStr "forward_x11", ofStr "no"),
   (ofStr "forward_agent", ofStr "no")]

/-! ## Lemmas: prefix and substring tests -/

theorem startsW_nil (s : Str) : startsW s [] = true := by
  cases s <;> rfl

theorem startsW_append_self (p s : Str) : startsW (p ++ s) p = true := by
  induction p with
  | nil => exact startsW_nil s
  | cons c p ih => simp [startsW, ih]

theorem mem_of_startsW {s p : Str} (h : startsW s p = true) : ∀ c ∈ p, c ∈ s := by
  induction p generalizing s with
  | nil => intro c hc; cases hc
  | cons a p ih =>
    cases s with
    | nil => simp [startsW] at h
    | cons b s =>
      simp only [startsW, Bool.and_eq_true, beq_iff_eq] at h
      intro c hc
      rcases List.mem_cons.mp hc with h1 | h1
      · rw [h1, ← h.1]; exact List.mem_cons_self b s
      · exact List.mem_cons_of_mem b (ih h.2 c h1)

theorem containsSub_cons (c : Char) (t sub : Str) :
    containsSub (c :: t) sub = (startsW (c :: t) sub || containsSub t sub) := rfl

theorem containsSub_of_startsW {s sub : Str} (h : startsW s sub = true) :
    containsSub s sub = true := by
  cases s <;> simp [containsSub, h]

theorem containsSub_nil_sub (s : Str) : containsSub s [] = true :=
  containsSub_of_startsW (startsW_nil s)

theorem mem_of_containsSub {s sub : Str} (h : containsSub s sub = true) :
    ∀ c ∈ sub, c ∈ s := by
  induction s with
  | nil =>
    intro c hc
    cases sub with
    | nil => cases hc
    | cons a p => simp [containsSub, startsW] at h
  | cons b t ih =>
    rw [containsSub_cons, Bool.or_eq_true] at h
    rcases h with h1 | h1
    · exact mem_of_startsW h1
    · intro c hc; exact List.mem_cons_of_mem b (ih h1 c hc)

theorem containsSub_eq_false_of_not_mem {s sub : Str} {c0 : Char}
    (hc : c0 ∈ sub) (hs : c0 ∉ s) : containsSub s sub = false := by
  cases h : containsSub s sub
  · rfl
  · exact absurd (mem_of_containsSub h c0 hc) hs

theorem containsSub_append_mid (x sub y : Str) : containsSub (x ++ (sub ++ y)) sub = true := by
  induction x with
  | nil => exact containsSub_of_startsW (startsW_append_self sub y)
  | cons c x ih => rw [List.cons_append, containsSub_cons, ih, Bool.or_true]

/-! ## Lemmas: `pyStrip` -/

theorem dropWhile_cons_of_false {p : Char → Bool} {c : Char} {t : Str} (h : p c = false) :
    (c :: t).dropWhile p = c :: t := by
  rw [List.dropWhile_cons, h]; simp

theorem dropWhile_eq_self_of_all {p : Char → Bool} {m : Str}
    (h : ∀ c ∈ m, p c = false) : m.dropWhile p = m := by
  cases m with
  | nil => rfl
  | cons c t => exact dropWhile_cons_of_false (h c (List.mem_cons_self c t))

theorem dropWhile_append_of_all {p : Char → Bool} {ws m : Str}
    (h : ∀ c ∈ ws, p c = true) : (ws ++ m).dropWhile p = m.dropWhile p := by
  induction ws with
  | nil => rfl
  | cons c w ih =>
    rw [List.cons_append, List.dropWhile_cons, h c (List.mem_cons_self c w)]
    simp only [if_true]
    exact ih (fun d hd => h d (List.mem_cons_of_mem c hd))

theorem pyStrip_eq_of {m : Str} (h1 : m.dropWhile isPySpace = m)
    (h2 : m.reverse.dropWhile isPySpace = m.reverse) : pyStrip m = m := by
  unfold pyStrip; rw [h1, h2, List.reverse_reverse]

theorem pyStrip_ws_append {ws m : Str} (hws : ∀ c ∈ ws, isPySpace c = true)
    (h1 : m.dropWhile isPySpace = m) (h2 : m.reverse.dropWhile isPySpace = m.reverse) :
    pyStrip (ws ++ m) = m := by
  unfold pyStrip; rw [dropWhile_append_of_all hws, h1, h2, List.reverse_reverse]

theorem rev_cons_of_all {v : Str} (hv : v ≠ []) (h : ∀ c ∈ v, isPySpace c = false) :
    ∃ c t, v.reverse = c :: t ∧ isPySpace c = false := by
  cases hr : v.reverse with
  | nil => exact absurd (List.reverse_eq_nil_iff.mp hr) hv
  | cons c t =>
    refine ⟨c, t, rfl, h c ?_⟩
    rw [← List.mem_reverse, hr]
    exact List.mem_cons_self c t

theorem rev_cons_append {a b : Str} (hb : b ≠ []) (h : ∀ c ∈ b, isPySpace c = false) :
    ∃ c t, (a ++ b).reverse = c :: t ∧ isPySpace c = false := by
  obtain ⟨c, t, hbt, hc⟩ := rev_cons_of_all hb h
  exact ⟨c, t ++ a.reverse, by rw [List.reverse_append, hbt, List.cons_append], hc⟩

/-- Stripping an emitted config line `ws ++ k0 :: (kt ++ v)`: leading
whitespace `ws` goes, the keyword head `k0` and the last character of `v`
are not whitespace, so the rest stays. -/
theorem pyStrip_line (ws : Str) (k0 : Char) (kt v : Str)
    (hws : ∀ c ∈ ws, isPySpace c = true)
    (hk0 : isPySpace k0 = false)
    (hrev : ∃ c t, v.reverse = c :: t ∧ isPySpace c = false) :
    pyStrip (ws ++ k0 :: (kt ++ v)) = k0 :: (kt ++ v) := by
  obtain ⟨c, t, hvt, hc⟩ := hrev
  refine pyStrip_ws_append hws (dropWhile_cons_of_false hk0) ?_
  rw [List.reverse_cons, List.reverse_append, hvt, List.cons_append, List.cons_append]
  exact dropWhile_cons_of_false hc

/-! ## Lemmas: `pySplit` and `pySplitC` -/

theorem pySplitF_noOcc (sep : Str) : ∀ (fuel : Nat) (s acc : Str), s.length ≤ fuel →
    containsSub s sep = false → pySplitF sep fuel s acc = [acc.reverse ++ s] := by
  intro fuel
  induction fuel with
  | zero =>
    intro s acc hl hc
    cases s with
    | nil => simp [pySplitF]
    | cons c t => simp at hl
  | succ n ih =>
    intro s acc hl hc
    cases s with
    | nil => simp [pySplitF]
    | cons c t =>
      rw [containsSub_cons, Bool.or_eq_false_iff] at hc
      simp only [pySplitF, hc.1, Bool.false_eq_true, if_false]
      rw [ih t (c :: acc) (by simp only [List.length_cons] at hl; omega) hc.2]
      simp

theorem pySplit_kw (k : Char) (ks v : Str) (hnocc : containsSub v (k :: ks) = false) :
    pySplit ((k :: ks) ++ v) (k :: ks) = [[], v] := by
  show pySplitF (k :: ks) ((ks ++ v).length + 1) (k :: (ks ++ v)) [] = [[], v]
  have h1 : startsW (k :: (ks ++ v)) (k :: ks) = true := startsW_append_self (k :: ks) v
  simp only [pySplitF, h1, if_true, List.reverse_nil]
  have h2 : (k :: ks).length - 1 = ks.length := by simp
  rw [h2, List.drop_left]
  rw [pySplitF_noOcc (k :: ks) ((ks ++ v).length) v [] (by simp) hnocc]
  simp

theorem pySplitC_ne_nil (c : Char) (s : Str) : pySplitC c s ≠ [] := by
  cases s with
  | nil => simp [pySplitC]
  | cons a t =>
    unfold pySplitC
    by_cases h : (a == c) = true
    · simp [h]
    · simp only [h]
      simp only [Bool.false_eq_true, if_false]
      cases pySplitC c t <;> simp

theorem pySplitF_single (c : Char) : ∀ (fuel : Nat) (s acc : Str), s.length ≤ fuel →
    pySplitF [c] fuel s acc = (pySplitC c s).modifyHead (fun t => acc.reverse ++ t) := by
  intro fuel
  induction fuel with
  | zero =>
    intro s acc hl
    cases s with
    | nil => simp [pySplitF, pySplitC]
    | cons a t => simp at hl
  | succ n ih =>
    intro s acc hl
    cases s with
    | nil => simp [pySplitF, pySplitC]
    | cons a t =>
      have hsw : startsW (a :: t) [c] = (a == c) := by
        simp [startsW, startsW_nil]
      by_cases h : (a == c) = true
      · simp only [pySplitF, hsw, h, if_true, pySplitC]
        have hlen : t.length ≤ n := by simp only [List.length_cons] at hl; omega
        rw [show List.drop ([c].length - 1) t = t by simp]
        rw [ih t [] hlen]
        obtain ⟨t0, ts0, ht⟩ := List.exists_cons_of_ne_nil (pySplitC_ne_nil c t)
        rw [ht]
        simp
      · have h' : (a == c) = false := by simpa using h
        simp only [pySplitF, hsw, h', Bool.false_eq_true, if_false, pySplitC]
        have hlen : t.length ≤ n := by simp only [List.length_cons] at hl; omega
        rw [ih t (a :: acc) hlen]
        obtain ⟨t0, ts0, ht⟩ := List.exists_cons_of_ne_nil (pySplitC_ne_nil c t)
        rw [ht]
        simp

theorem pySplit_single (s : Str) (c : Char) : pySplit s [c] = pySplitC c s := by
  unfold pySplit
  rw [pySplitF_single c s.length s [] le_rfl]
  obtain ⟨t0, ts0, ht⟩ := List.exists_cons_of_ne_nil (pySplitC_ne_nil c s)
  rw [ht]
  simp

theorem pySplitC_sep_append (c : Char) (a b : Str) :
    pySplitC c (a ++ c :: b) = pySplitC c a ++ pySplitC c b := by
  induction a with
  | nil => simp [pySplitC]
  | cons x a ih =>
    by_cases h : (x == c) = true
    · rw [List.cons_append]
      simp only [pySplitC, h, if_true, ih]
      rfl
    · have h' : (x == c) = false := by simpa using h
      rw [List.cons_append]
      simp only [pySplitC, h', Bool.false_eq_true, if_false, ih]
      obtain ⟨t0, ts0, ht⟩ := List.exists_cons_of_ne_nil (pySplitC_ne_nil c a)
      rw [ht]
      simp

theorem pySplitC_of_not_mem {c : Char} {a : Str} (h : c ∉ a) : pySplitC c a = [a] := by
  induction a with
  | nil => rfl
  | cons x t ih =>
    have hx : (x == c) = false := by
      simp only [beq_eq_false_iff_ne, ne_eq]
      intro he
      exact h (he ▸ List.mem_cons_self x t)
    simp only [pySplitC, hx, Bool.false_eq_true, if_false]
    rw [ih (fun hc => h (List.mem_cons_of_mem _ hc))]

theorem pySplitC_head_startsW (c : Char) : ∀ (s h : Str) (ts : List Str),
    pySplitC c s = h :: ts → startsW s h = true := by
  intro s
  induction s with
  | nil =>
    intro h ts he
    simp [pySplitC] at he
    rw [he.1]
    exact startsW_nil []
  | cons x t ih =>
    intro h ts he
    by_cases hx : (x == c) = true
    · simp only [pySplitC, hx, if_true] at he
      injection he with he1 he2
      rw [← he1]
      exact startsW_nil (x :: t)
    · have hx' : (x == c) = false := by simpa using hx
      obtain ⟨t0, ts0, ht⟩ := List.exists_cons_of_ne_nil (pySplitC_ne_nil c t)
      have hsplit : pySplitC c (x :: t) = (x :: t0) :: ts0 := by
        simp only [pySplitC, hx', Bool.false_eq_true, if_false, ht]
      rw [hsplit] at he
      injection he with he1 he2
      rw [← he1]
      simp only [startsW, beq_self_eq_true, Bool.true_and]
      exact ih t0 ts0 ht

theorem containsSub_of_mem_pySplitC (c : Char) : ∀ (s l : Str),
    l ∈ pySplitC c s → containsSub s l = true := by
  intro s
  induction s with
  | nil =>
    intro l hl
    simp [pySplitC] at hl
    rw [hl]
    exact containsSub_nil_sub []
  | cons x t ih =>
    intro l hl
    by_cases hx : (x == c) = true
    · simp only [pySplitC, hx, if_true] at hl
      rcases List.mem_cons.mp hl with h1 | h1
      · rw [h1]; exact containsSub_nil_sub (x :: t)
      · rw [containsSub_cons, ih l h1, Bool.or_true]
    · have hx' : (x == c) = false := by simpa using hx
      obtain ⟨t0, ts0, ht⟩ := List.exists_cons_of_ne_nil (pySplitC_ne_nil c t)
      have hsplit : pySplitC c (x :: t) = (x :: t0) :: ts0 := by
        simp only [pySplitC, hx', Bool.false_eq_true, if_false, ht]
      rw [hsplit] at hl
      rcases List.mem_cons.mp hl with h1 | h1
      · rw [h1]
        refine containsSub_of_startsW ?_
        simp only [startsW, beq_self_eq_true, Bool.true_and]
        exact pySplitC_head_startsW c t t0 ts0 ht
      · rw [containsSub_cons, ih l (ht ▸ List.mem_cons_of_mem t0 h1), Bool.or_true]

/-! ## Lemmas: `pySplitWs` -/

theorem pySplitWsGo_nospace : ∀ (rest acc : Str), (∀ c ∈ rest, isPySpace c = false) →
    pySplitWsGo rest acc =
      if (acc.reverse ++ rest) = [] then [] else [acc.reverse ++ rest] := by
  intro rest
  induction rest with
  | nil => intro acc h; cases acc <;> simp [pySplitWsGo]
  | cons c r ih =>
    intro acc h
    have hc : isPySpace c = false := h c (List.mem_cons_self c r)
    simp only [pySplitWsGo, hc, Bool.false_eq_true, if_false]
    rw [ih (c :: acc) (fun d hd => h d (List.mem_cons_of_mem c hd))]
    simp

theorem pySplitWsGo_two : ∀ (d acc rest : Str),
    (∀ c ∈ d, isPySpace c = false) → rest ≠ [] → (∀ c ∈ rest, isPySpace c = false) →
    pySplitWsGo (d ++ ' ' :: rest) acc =
      if (acc.reverse ++ d) = [] then [rest] else [acc.reverse ++ d, rest] := by
  intro d
  induction d with
  | nil =>
    intro acc rest hds hr hrs
    have hgo : pySplitWsGo rest [] = [rest] := by
      rw [pySplitWsGo_nospace rest [] hrs]; simp [hr]
    simp only [List.nil_append, pySplitWsGo, show isPySpace ' ' = true from rfl, if_true]
    cases acc <;> simp [hgo]
  | cons x d ih =>
    intro acc rest hds hr hrs
    have hx : isPySpace x = false := hds x (List.mem_cons_self x d)
    simp only [List.cons_append, pySplitWsGo, hx, Bool.false_eq_true, if_false,
      List.append_eq]
    rw [ih (x :: acc) rest (fun c hc => hds c (List.mem_cons_of_mem x hc)) hr hrs]
    simp

theorem pySplitWs_two {d rest : Str} (hd : d ≠ []) (hds : ∀ c ∈ d, isPySpace c = false)
    (hr : rest ≠ []) (hrs : ∀ c ∈ rest, isPySpace c = false) :
    pySplitWs (d ++ ' ' :: rest) = [d, rest] := by
  unfold pySplitWs
  rw [pySplitWsGo_two d [] rest hds hr hrs]
  simp [hd]

/-! ## Lemmas: decimal digits, `natRepr`, `intRepr`, `pyInt` -/

theorem natDigitsF_eq : ∀ (fuel n : Nat), n ≤ fuel → natDigitsF fuel n = Nat.digits 10 n := by
  intro fuel
  induction fuel with
  | zero =>
    intro n h
    interval_cases n
    simp [natDigitsF]
  | succ f ih =>
    intro n h
    match n with
    | 0 => simp [natDigitsF]
    | m + 1 =>
      show ((m + 1) % 10) :: natDigitsF f ((m + 1) / 10) = _
      have hdiv : (m + 1) / 10 ≤ f := by
        have := Nat.div_lt_self (Nat.succ_pos m) (by norm_num : 1 < 10)
        omega
      rw [ih ((m + 1) / 10) hdiv,
        Nat.digits_def' (by norm_num : (1 : ℕ) < 10) (Nat.succ_pos m)]

theorem digitChar_toNat {d : Nat} (h : d < 10) : (Nat.digitChar d).toNat = 48 + d := by
  interval_cases d <;> decide

theorem digitChar_isDigit {d : Nat} (h : d < 10) : (Nat.digitChar d).isDigit = true := by
  interval_cases d <;> decide

theorem digitsVal_map : ∀ (l : List Nat), (∀ d ∈ l, d < 10) →
    digitsVal ((l.map Nat.digitChar).reverse) = Nat.ofDigits 10 l := by
  intro l
  induction l with
  | nil => simp [digitsVal, Nat.ofDigits]
  | cons d l ih =>
    intro h
    unfold digitsVal at *
    rw [List.map_cons, List.reverse_cons, List.foldl_append,
      ih (fun x hx => h x (List.mem_cons_of_mem d hx))]
    simp only [List.foldl_cons, List.foldl_nil]
    rw [digitChar_toNat (h d (List.mem_cons_self d l)), Nat.ofDigits_cons]
    omega

theorem digitsVal_natRepr (n : Nat) : digitsVal (natRepr n) = n := by
  unfold natRepr
  by_cases h : n = 0
  · subst h; rfl
  · simp only [h, if_false]
    rw [natDigitsF_eq n n le_rfl,
      digitsVal_map _ (fun d hd => Nat.digits_lt_base (by norm_num) hd),
      Nat.ofDigits_digits]

theorem natRepr_ne_nil (n : Nat) : natRepr n ≠ [] := by
  unfold natRepr
  by_cases h : n = 0
  · simp [h]
  · simp only [h, if_false]
    simp only [ne_eq, List.reverse_eq_nil_iff, List.map_eq_nil_iff]
    rw [natDigitsF_eq n n le_rfl]
    exact Nat.digits_ne_nil_iff_ne_zero.mpr h

theorem natRepr_all_digit (n : Nat) : ∀ c ∈ natRepr n, c.isDigit = true := by
  unfold natRepr
  by_cases h : n = 0
  · simp only [h, if_true]
    intro c hc
    rw [List.mem_singleton] at hc
    subst hc
    decide
  · simp only [h, if_false]
    intro c hc
    rw [List.mem_reverse, List.mem_map] at hc
    obtain ⟨d, hd, hdc⟩ := hc
    rw [← hdc]
    refine digitChar_isDigit ?_
    rw [natDigitsF_eq n n le_rfl] at hd
    exact Nat.digits_lt_base (by norm_num) hd

theorem isDigit_not_space {c : Char} (h : c.isDigit = true) : isPySpace c = false := by
  cases hs : isPySpace c
  · rfl
  · exfalso
    unfold isPySpace at hs
    simp only [Bool.or_eq_true, beq_iff_eq] at hs
    rcases hs with ((((h1 | h1) | h1) | h1) | h1) | h1 <;> subst h1 <;>
      exact absurd h (by decide)

theorem isDigit_ne {c x : Char} (h : c.isDigit = true) (hx : x.isDigit = false) : c ≠ x := by
  intro he
  rw [he, hx] at h
  exact Bool.noConfusion h

theorem pyStrip_eq_self_of_all {m : Str} (h : ∀ c ∈ m, isPySpace c = false) :
    pyStrip m = m :=
  pyStrip_eq_of (dropWhile_eq_self_of_all h)
    (dropWhile_eq_self_of_all (fun c hc => h c (List.mem_reverse.mp hc)))

theorem pyInt_natRepr (n : Nat) : pyInt (natRepr n) = .ok (n : Int) := by
  have hall := natRepr_all_digit n
  have hstrip : pyStrip (natRepr n) = natRepr n :=
    pyStrip_eq_self_of_all (fun c hc => isDigit_not_space (hall c hc))
  obtain ⟨c, ds, hc⟩ := List.exists_cons_of_ne_nil (natRepr_ne_nil n)
  unfold pyInt
  rw [hstrip, hc]
  have hcd : c.isDigit = true := hall c (hc ▸ List.mem_cons_self c ds)
  have h1 : (c == '-') = false := by
    simp only [beq_eq_false_iff_ne, ne_eq]
    exact isDigit_ne hcd (by decide)
  have h2 : (c == '+') = false := by
    simp only [beq_eq_false_iff_ne, ne_eq]
    exact isDigit_ne hcd (by decide)
  have h3 : (c :: ds).all Char.isDigit = true := by
    rw [List.all_eq_true]
    intro x hx
    exact hall x (hc ▸ hx)
  simp only [h1, h2, Bool.false_eq_true, if_false, h3, if_true]
  rw [← hc, digitsVal_natRepr]

theorem pyInt_intRepr (n : Int) : pyInt (intRepr n) = .ok n := by
  unfold intRepr
  by_cases h : n < 0
  · simp only [h, if_true]
    have hall := natRepr_all_digit n.natAbs
    have hstrip : pyStrip ('-' :: natRepr n.natAbs) = '-' :: natRepr n.natAbs := by
      refine pyStrip_eq_self_of_all ?_
      intro c hc
      rcases List.mem_cons.mp hc with h1 | h1
      · rw [h1]; decide
      · exact isDigit_not_space (hall c h1)
    unfold pyInt
    rw [hstrip]
    have hne : natRepr n.natAbs ≠ [] := natRepr_ne_nil _
    have hdg : (natRepr n.natAbs).all Char.isDigit = true := by
      rw [List.all_eq_true]; exact hall
    simp only [show (('-' : Char) == '-') = true from rfl, if_true, hne, hdg,
      ne_eq, not_false_eq_true, and_self, if_true]
    rw [digitsVal_natRepr]
    congr 1
    omega
  · simp only [h, if_false]
    rw [pyInt_natRepr]
    congr 1
    omega

theorem intRepr_chars (n : Int) : ∀ c ∈ intRepr n, c.isDigit = true ∨ c = '-' := by
  unfold intRepr
  by_cases h : n < 0
  · simp only [h, if_true]
    intro c hc
    rcases List.mem_cons.mp hc with h1 | h1
    · right; exact h1
    · left; exact natRepr_all_digit _ c h1
  · simp only [h, if_false]
    intro c hc
    left; exact natRepr_all_digit _ c hc

theorem intRepr_ne_nil (n : Int) : intRepr n ≠ [] := by
  unfold intRepr
  by_cases h : n < 0
  · simp [h]
  · simp only [h, if_false]; exact natRepr_ne_nil _

theorem intRepr_not_space (n : Int) : ∀ c ∈ intRepr n, isPySpace c = false := by
  intro c hc
  rcases intRepr_chars n c hc with h | h
  · exact isDigit_not_space h
  · rw [h]; decide

/-! ## Lemmas: `joinNl` -/

theorem joinNl_cons (l : Str) (ls : List Str) (h : ls ≠ []) :
    joinNl (l :: ls) = l ++ '\n' :: joinNl ls := by
  cases ls with
  | nil => exact absurd rfl h
  | cons a t => rfl

theorem split_joinNl : ∀ (ls : List Str), (∀ l ∈ ls, ('\n' : Char) ∉ l) → ls ≠ [] →
    pySplitC '\n' (joinNl ls ++ ['\n']) = ls ++ [[]] := by
  intro ls
  induction ls with
  | nil => intro _ h; exact absurd rfl h
  | cons l ls ih =>
    intro hnl _
    cases ls with
    | nil =>
      show pySplitC '\n' (l ++ '\n' :: []) = [l, []]
      rw [pySplitC_sep_append, pySplitC_of_not_mem (hnl l (List.mem_cons_self l []))]
      rfl
    | cons a t =>
      rw [joinNl_cons l (a :: t) (by simp), List.cons_append, List.append_assoc,
        List.cons_append, pySplitC_sep_append,
        pySplitC_of_not_mem (hnl l (List.mem_cons_self l (a :: t))),
        ih (fun x hx => hnl x (List.mem_cons_of_mem l hx)) (by simp)]
      rfl

theorem mem_joinNl {c : Char} : ∀ {ls : List Str}, c ∈ joinNl ls →
    c = '\n' ∨ ∃ l ∈ ls, c ∈ l := by
  intro ls
  induction ls with
  | nil => intro h; cases h
  | cons l ls ih =>
    intro h
    cases ls with
    | nil => exact Or.inr ⟨l, List.mem_cons_self l [], h⟩
    | cons a t =>
      rw [joinNl_cons l (a :: t) (by simp)] at h
      rcases List.mem_append.mp h with h1 | h1
      · exact Or.inr ⟨l, List.mem_cons_self l (a :: t), h1⟩
      · rcases List.mem_cons.mp h1 with h2 | h2
        · exact Or.inl h2
        · rcases ih h2 with h3 | ⟨l', hl', hc'⟩
          · exact Or.inl h3
          · exact Or.inr ⟨l', List.mem_cons_of_mem l hl', hc'⟩

/-! ## Lemmas: character classes -/

theorem simpleChar_not_space {c : Char} (h : simpleChar c = true) : isPySpace c = false := by
  cases hs : isPySpace c
  · rfl
  · exfalso
    unfold isPySpace at hs
    simp only [Bool.or_eq_true, beq_iff_eq] at hs
    rcases hs with ((((h1 | h1) | h1) | h1) | h1) | h1 <;> subst h1 <;>
      exact absurd h (by decide)

theorem simpleChar_ne {c : Char} (h : simpleChar c = true) {x : Char}
    (hx : simpleChar x = false) : c ≠ x := by
  intro he
  rw [he, hx] at h
  exact Bool.noConfusion h

theorem goodStr_mem {s : Str} (h : goodStr s = true) : ∀ c ∈ s, simpleChar c = true := by
  intro c hc
  exact List.all_eq_true.mp h c hc

theorem goodStr_not_mem {s : Str} (h : goodStr s = true) {x : Char}
    (hx : simpleChar x = false) : x ∉ s := by
  intro hmem
  exact absurd (goodStr_mem h x hmem) (by rw [hx]; exact Bool.noConfusion)

theorem goodStr_nospace {s : Str} (h : goodStr s = true) : ∀ c ∈ s, isPySpace c = false :=
  fun c hc => simpleChar_not_space (goodStr_mem h c hc)

theorem goodStr_ne_mem {s : Str} (h : goodStr s = true) {x : Char}
    (hx : simpleChar x = false) : ∀ c ∈ s, c ≠ x :=
  fun c hc => simpleChar_ne (goodStr_mem h c hc) hx

theorem intRepr_ne_mem (n : Int) {x : Char} (hx : x.isDigit = false) (hx2 : x ≠ '-') :
    ∀ c ∈ intRepr n, c ≠ x := by
  intro c hc
  rcases intRepr_chars n c hc with h | h
  · exact isDigit_ne h hx
  · rw [h]; exact fun he => hx2 he.symm

/-! ## Lemmas: no occurrence of a keyword inside emitted values -/

theorem containsSub_sep_mid_false (k0 : Char) (kt : Str) (hsp : (' ' : Char) ∈ (k0 :: kt))
    (hk0 : k0 ≠ ' ') : ∀ {d rest : Str},
    (∀ c ∈ d, c ≠ k0 ∧ isPySpace c = false) →
    (∀ c ∈ rest, isPySpace c = false) →
    containsSub (d ++ ' ' :: rest) (k0 :: kt) = false := by
  intro d
  induction d with
  | nil =>
    intro rest _ hrest
    rw [List.nil_append, containsSub_cons, Bool.or_eq_false_iff]
    constructor
    · simp only [startsW, Bool.and_eq_false_iff]
      left
      simp only [beq_eq_false_iff_ne, ne_eq]
      exact fun he => hk0 he.symm
    · refine containsSub_eq_false_of_not_mem hsp ?_
      intro hmem
      exact absurd (hrest ' ' hmem) (by decide)
  | cons x d ih =>
    intro rest hd hrest
    rw [List.cons_append, containsSub_cons, Bool.or_eq_false_iff]
    constructor
    · simp only [startsW, Bool.and_eq_false_iff]
      left
      simp only [beq_eq_false_iff_ne, ne_eq]
      exact (hd x (List.mem_cons_self x d)).1
    · exact ih (fun c hc => hd c (List.mem_cons_of_mem x hc)) hrest

/-- No occurrence of a keyword (containing a space) inside a space-free value. -/
theorem containsSub_kw_false {kw v : Str} (hsp : (' ' : Char) ∈ kw)
    (hv : ∀ c ∈ v, isPySpace c = false) : containsSub v kw = false := by
  refine containsSub_eq_false_of_not_mem hsp ?_
  intro hmem
  exact absurd (hv ' ' hmem) (by decide)

/-! ## Lemmas: `processLine` on each kind of emitted line -/

theorem procBlank (st : ParseSt) : processLine st [] = .ok st := rfl

theorem procKA1 (st : ParseSt) : processLine st (ofStr "    ServerAliveInterval 60") = .ok st := rfl

theorem procKA2 (st : ParseSt) : processLine st (ofStr "    ServerAliveCountMax 3") = .ok st := rfl

theorem procKA3 (st : ParseSt) : processLine st (ofStr "    ConnectTimeout 10") = .ok st := rfl

theorem procMeta (st : ParseSt) (tag : Str) : processLine st (metaLine tag) = .ok st := by
  have hstrip : pyStrip (metaLine tag) = metaLine tag := by
    refine pyStrip_eq_of (dropWhile_cons_of_false (by decide)) ?_
    obtain ⟨c, t, hrev, hc⟩ :=
      rev_cons_append (a := metaPre ++ (ofStr "\x7b\"color\": \"" ++ tag))
        (b := ofStr "\"\x7d") (by decide) (by decide)
    have hrev' : (metaLine tag).reverse = c :: t := hrev
    rw [hrev']
    exact dropWhile_cons_of_false hc
  have hne2 : ((metaLine tag : Str) == []) = false := by
    rw [beq_eq_false_iff_ne]
    show ('#' :: _ : Str) ≠ []
    exact List.cons_ne_nil _ _
  simp only [processLine, hstrip, hne2, Bool.false_eq_true, if_false,
    show startsW (metaLine tag) (ofStr "#") = true from rfl, if_true]

theorem procHost (st : ParseSt) (nm : Str) (hstn : st.name ≠ []) (hne : nm ≠ [])
    (hg : goodStr nm = true) : processLine st (hostKw ++ nm) = .ok st := by
  have hstrip : pyStrip (hostKw ++ nm) = hostKw ++ nm := by
    refine pyStrip_eq_of (dropWhile_cons_of_false (by decide)) ?_
    obtain ⟨c, t, hrev, hc⟩ := rev_cons_append (a := hostKw) (b := nm) hne (goodStr_nospace hg)
    rw [hrev]
    exact dropWhile_cons_of_false hc
  have hne2 : ((hostKw ++ nm : Str) == []) = false := by
    rw [beq_eq_false_iff_ne]
    show ('H' :: _ : Str) ≠ []
    exact List.cons_ne_nil _ _
  have hstn' : (st.name == ([] : Str)) = false := by
    rw [beq_eq_false_iff_ne]; exact hstn
  simp only [processLine, hstrip, hne2, Bool.false_eq_true, if_false,
    show startsW (hostKw ++ nm) (ofStr "#") = false from rfl,
    startsW_append_self hostKw nm, hstn', Bool.true_and,
    show startsW (hostKw ++ nm) hostNameKw = false from rfl,
    show startsW (hostKw ++ nm) userKw = false from rfl,
    show startsW (hostKw ++ nm) portKw = false from rfl,
    show startsW (hostKw ++ nm) identityKw = false from rfl,
    show startsW (hostKw ++ nm) proxyKw = false from rfl,
    show startsW (hostKw ++ nm) localFKw = false from rfl,
    show startsW (hostKw ++ nm) remoteFKw = false from rfl]

theorem procHostName (st : ParseSt) (h : Str) (hne : h ≠ []) (hg : goodStr h = true) :
    processLine st (ofStr "    HostName " ++ h) = .ok { st with hostname := h } := by
  have hns : ∀ c ∈ h, isPySpace c = false := goodStr_nospace hg
  have hstrip : pyStrip (ofStr "    HostName " ++ h) = hostNameKw ++ h :=
    pyStrip_line (ofStr "    ") 'H' (ofStr "ostName ") h
      (by decide) (by decide) (rev_cons_of_all hne hns)
  have hsplit : pySplit (hostNameKw ++ h) hostNameKw = [[], h] :=
    pySplit_kw 'H' (ofStr "ostName ") h (containsSub_kw_false (by decide) hns)
  have hvstrip : pyStrip h = h := pyStrip_eq_self_of_all hns
  have hne2 : ((hostNameKw ++ h : Str) == []) = false := by
    rw [beq_eq_false_iff_ne]
    show ('H' :: _ : Str) ≠ []
    exact List.cons_ne_nil _ _
  simp only [processLine, hstrip, hne2, Bool.false_eq_true, if_false,
    show startsW (hostNameKw ++ h) (ofStr "#") = false from rfl,
    show startsW (hostNameKw ++ h) hostKw = false from rfl, Bool.false_and,
    startsW_append_self hostNameKw h, if_true, hsplit]
  rw [show idx1 [[], h] = h from rfl, hvstrip]

theorem procUser (st : ParseSt) (u : Str) (hne : u ≠ []) (hg : goodStr u = true) :
    processLine st (ofStr "    User " ++ u) = .ok { st with user := u } := by
  have hns : ∀ c ∈ u, isPySpace c = false := goodStr_nospace hg
  have hstrip : pyStrip (ofStr "    User " ++ u) = userKw ++ u :=
    pyStrip_line (ofStr "    ") 'U' (ofStr "ser ") u
      (by decide) (by decide) (rev_cons_of_all hne hns)
  have hsplit : pySplit (userKw ++ u) userKw = [[], u] :=
    pySplit_kw 'U' (ofStr "ser ") u (containsSub_kw_false (by decide) hns)
  have hvstrip : pyStrip u = u := pyStrip_eq_self_of_all hns
  have hne2 : ((userKw ++ u : Str) == []) = false := by
    rw [beq_eq_false_iff_ne]
    show ('U' :: _ : Str) ≠ []
    exact List.cons_ne_nil _ _
  simp only [processLine, hstrip, hne2, Bool.false_eq_true, if_false,
    show startsW (userKw ++ u) (ofStr "#") = false from rfl,
    show startsW (userKw ++ u) hostKw = false from rfl, Bool.false_and,
    show startsW (userKw ++ u) hostNameKw = false from rfl,
    startsW_append_self userKw u, if_true, hsplit]
  rw [show idx1 [[], u] = u from rfl, hvstrip]

theorem procPort (st : ParseSt) (p : Int) :
    processLine st (ofStr "    Port " ++ intRepr p) = .ok { st with port := p } := by
  have hns : ∀ c ∈ intRepr p, isPySpace c = false := intRepr_not_space p
  have hstrip : pyStrip (ofStr "    Port " ++ intRepr p) = portKw ++ intRepr p :=
    pyStrip_line (ofStr "    ") 'P' (ofStr "ort ") (intRepr p)
      (by decide) (by decide) (rev_cons_of_all (intRepr_ne_nil p) hns)
  have hsplit : pySplit (portKw ++ intRepr p) portKw = [[], intRepr p] :=
    pySplit_kw 'P' (ofStr "ort ") (intRepr p) (containsSub_kw_false (by decide) hns)
  have hvstrip : pyStrip (intRepr p) = intRepr p := pyStrip_eq_self_of_all hns
  have hne2 : ((portKw ++ intRepr p : Str) == []) = false := by
    rw [beq_eq_false_iff_ne]
    show ('P' :: _ : Str) ≠ []
    exact List.cons_ne_nil _ _
  simp only [processLine, hstrip, hne2, Bool.false_eq_true, if_false,
    show startsW (portKw ++ intRepr p) (ofStr "#") = false from rfl,
    show startsW (portKw ++ intRepr p) hostKw = false from rfl, Bool.false_and,
    show startsW (portKw ++ intRepr p) hostNameKw = false from rfl,
    show startsW (portKw ++ intRepr p) userKw = false from rfl,
    startsW_append_self portKw (intRepr p), if_true, hsplit]
  rw [show idx1 [[], intRepr p] = intRepr p from rfl, hvstrip, pyInt_intRepr]

theorem procIdentity (st : ParseSt) (i : Str) (hne : i ≠ []) (hg : goodStr i = true) :
    processLine st (ofStr "    IdentityFile " ++ i) = .ok { st with identity_file := i } := by
  have hns : ∀ c ∈ i, isPySpace c = false := goodStr_nospace hg
  have hstrip : pyStrip (ofStr "    IdentityFile " ++ i) = identityKw ++ i :=
    pyStrip_line (ofStr "    ") 'I' (ofStr "dentityFile ") i
      (by decide) (by decide) (rev_cons_of_all hne hns)
  have hsplit : pySplit (identityKw ++ i) identityKw = [[], i] :=
    pySplit_kw 'I' (ofStr "dentityFile ") i (containsSub_kw_false (by decide) hns)
  have hvstrip : pyStrip i = i := pyStrip_eq_self_of_all hns
  have hne2 : ((identityKw ++ i : Str) == []) = false := by
    rw [beq_eq_false_iff_ne]
    show ('I' :: _ : Str) ≠ []
    exact List.cons_ne_nil _ _
  simp only [processLine, hstrip, hne2, Bool.false_eq_true, if_false,
    show startsW (identityKw ++ i) (ofStr "#") = false from rfl,
    show startsW (identityKw ++ i) hostKw = false from rfl, Bool.false_and,
    show startsW (identityKw ++ i) hostNameKw = false from rfl,
    show startsW (identityKw ++ i) userKw = false from rfl,
    show startsW (identityKw ++ i) portKw = false from rfl,
    startsW_append_self identityKw i, if_true, hsplit]
  rw [show idx1 [[], i] = i from rfl, hvstrip]

theorem procProxy (st : ParseSt) (pj : Str) (hne : pj ≠ []) (hg : goodStr pj = true) :
    processLine st (ofStr "    ProxyJump " ++ pj) = .ok { st with proxy_jump := pj } := by
  have hns : ∀ c ∈ pj, isPySpace c = false := goodStr_nospace hg
  have hstrip : pyStrip (ofStr "    ProxyJump " ++ pj) = proxyKw ++ pj :=
    pyStrip_line (ofStr "    ") 'P' (ofStr "roxyJump ") pj
      (by decide) (by decide) (rev_cons_of_all hne hns)
  have hsplit : pySplit (proxyKw ++ pj) proxyKw = [[], pj] :=
    pySplit_kw 'P' (ofStr "roxyJump ") pj (containsSub_kw_false (by decide) hns)
  have hvstrip : pyStrip pj = pj := pyStrip_eq_self_of_all hns
  have hne2 : ((proxyKw ++ pj : Str) == []) = false := by
    rw [beq_eq_false_iff_ne]
    show ('P' :: _ : Str) ≠ []
    exact List.cons_ne_nil _ _
  simp only [processLine, hstrip, hne2, Bool.false_eq_true, if_false,
    show startsW (proxyKw ++ pj) (ofStr "#") = false from rfl,
    show startsW (proxyKw ++ pj) hostKw = false from rfl, Bool.false_and,
    show startsW (proxyKw ++ pj) hostNameKw = false from rfl,
    show startsW (proxyKw ++ pj) userKw = false from rfl,
    show startsW (proxyKw ++ pj) portKw = false from rfl,
    show startsW (proxyKw ++ pj) identityKw = false from rfl,
    startsW_append_self proxyKw pj, if_true, hsplit]
  rw [show idx1 [[], pj] = pj from rfl, hvstrip]

theorem procLF (st : ParseSt) (lp : Int) (h : Str) (rp : Int) (hg : goodStr h = true) :
    processLine st (lfLine (lp, h, rp)) =
      .ok { st with local_forwards := st.local_forwards ++ [(lp, h, rp)] } := by
  have hrest : ∀ c ∈ h ++ ':' :: intRepr rp, isPySpace c = false := by
    intro c hc
    rcases List.mem_append.mp hc with h1 | h1
    · exact goodStr_nospace hg c h1
    · rcases List.mem_cons.mp h1 with h2 | h2
      · rw [h2]; decide
      · exact intRepr_not_space rp c h2
  have hrestne : (h ++ ':' :: intRepr rp : Str) ≠ [] := by simp
  have hd : ∀ c ∈ intRepr lp, c ≠ 'L' ∧ isPySpace c = false :=
    fun c hc => ⟨intRepr_ne_mem lp (by decide) (by decide) c hc, intRepr_not_space lp c hc⟩
  have hassoc : (intRepr lp ++ ' ' :: (h ++ ':' :: intRepr rp) : Str) =
      (intRepr lp ++ ' ' :: (h ++ [':'])) ++ intRepr rp := by simp
  have hrev : ∃ c t, (intRepr lp ++ ' ' :: (h ++ ':' :: intRepr rp) : Str).reverse = c :: t ∧
      isPySpace c = false := by
    rw [hassoc]
    exact rev_cons_append (intRepr_ne_nil rp) (intRepr_not_space rp)
  have hnocc : containsSub (intRepr lp ++ ' ' :: (h ++ ':' :: intRepr rp)) localFKw = false :=
    containsSub_sep_mid_false 'L' (ofStr "ocalForward ")
      (by decide) (by decide) hd hrest
  have hstrip : pyStrip (lfLine (lp, h, rp)) =
      localFKw ++ (intRepr lp ++ ' ' :: (h ++ ':' :: intRepr rp)) :=
    pyStrip_line (ofStr "    ") 'L' (ofStr "ocalForward ")
      (intRepr lp ++ ' ' :: (h ++ ':' :: intRepr rp)) (by decide) (by decide) hrev
  have hsplit : pySplit (localFKw ++ (intRepr lp ++ ' ' :: (h ++ ':' :: intRepr rp))) localFKw =
      [[], intRepr lp ++ ' ' :: (h ++ ':' :: intRepr rp)] :=
    pySplit_kw 'L' (ofStr "ocalForward ") _ hnocc
  have hvstrip : pyStrip (intRepr lp ++ ' ' :: (h ++ ':' :: intRepr rp)) =
      intRepr lp ++ ' ' :: (h ++ ':' :: intRepr rp) := by
    obtain ⟨c0, t0, hlp⟩ := List.exists_cons_of_ne_nil (intRepr_ne_nil lp)
    refine pyStrip_eq_of ?_ ?_
    · rw [hlp, List.cons_append]
      exact dropWhile_cons_of_false
        (intRepr_not_space lp c0 (hlp ▸ List.mem_cons_self c0 t0))
    · obtain ⟨c, t, hrv, hc⟩ := hrev
      rw [hrv]
      exact dropWhile_cons_of_false hc
  have hws : pySplitWs (intRepr lp ++ ' ' :: (h ++ ':' :: intRepr rp)) =
      [intRepr lp, h ++ ':' :: intRepr rp] :=
    pySplitWs_two (intRepr_ne_nil lp) (intRepr_not_space lp) hrestne hrest
  have hnm : (':' : Char) ∉ intRepr rp := by
    intro hmem
    exact (intRepr_ne_mem rp (by decide) (by decide) ':' hmem) rfl
  have hcolon : pySplit (h ++ ':' :: intRepr rp) (ofStr ":") = [h, intRepr rp] := by
    rw [show (ofStr ":" : Str) = [':'] from rfl, pySplit_single, pySplitC_sep_append,
      pySplitC_of_not_mem (goodStr_not_mem hg (by decide)), pySplitC_of_not_mem hnm]
    rfl
  have hne2 : ((localFKw ++ (intRepr lp ++ ' ' :: (h ++ ':' :: intRepr rp)) : Str) == []) =
      false := by
    rw [beq_eq_false_iff_ne]
    show ('L' :: _ : Str) ≠ []
    exact List.cons_ne_nil _ _
  simp only [processLine, hstrip, hne2, Bool.false_eq_true, if_false,
    show startsW (localFKw ++ (intRepr lp ++ ' ' :: (h ++ ':' :: intRepr rp)))
      (ofStr "#") = false from rfl,
    show startsW (localFKw ++ (intRepr lp ++ ' ' :: (h ++ ':' :: intRepr rp)))
      hostKw = false from rfl, Bool.false_and,
    show startsW (localFKw ++ (intRepr lp ++ ' ' :: (h ++ ':' :: intRepr rp)))
      hostNameKw = false from rfl,
    show startsW (localFKw ++ (intRepr lp ++ ' ' :: (h ++ ':' :: intRepr rp)))
      userKw = false from rfl,
    show startsW (localFKw ++ (intRepr lp ++ ' ' :: (h ++ ':' :: intRepr rp)))
      portKw = false from rfl,
    show startsW (localFKw ++ (intRepr lp ++ ' ' :: (h ++ ':' :: intRepr rp)))
      identityKw = false from rfl,
    show startsW (localFKw ++ (intRepr lp ++ ' ' :: (h ++ ':' :: intRepr rp)))
      proxyKw = false from rfl,
    startsW_append_self localFKw (intRepr lp ++ ' ' :: (h ++ ':' :: intRepr rp)), if_true,
    hsplit, show idx1 [[], intRepr lp ++ ' ' :: (h ++ ':' :: intRepr rp)] =
      intRepr lp ++ ' ' :: (h ++ ':' :: intRepr rp) from rfl,
    hvstrip, hws, pyInt_intRepr, hcolon]

theorem procRF (st : ParseSt) (rp : Int) (h : Str) (lp : Int) (hg : goodStr h = true) :
    processLine st (rfLine (rp, h, lp)) =
      .ok { st with remote_forwards := st.remote_forwards ++ [(rp, h, lp)] } := by
  have hrest : ∀ c ∈ h ++ ':' :: intRepr lp, isPySpace c = false := by
    intro c hc
    rcases List.mem_append.mp hc with h1 | h1
    · exact goodStr_nospace hg c h1
    · rcases List.mem_cons.mp h1 with h2 | h2
      · rw [h2]; decide
      · exact intRepr_not_space lp c h2
  have hrestne : (h ++ ':' :: intRepr lp : Str) ≠ [] := by simp
  have hd : ∀ c ∈ intRepr rp, c ≠ 'R' ∧ isPySpace c = false :=
    fun c hc => ⟨intRepr_ne_mem rp (by decide) (by decide) c hc, intRepr_not_space rp c hc⟩
  have hassoc : (intRepr rp ++ ' ' :: (h ++ ':' :: intRepr lp) : Str) =
      (intRepr rp ++ ' ' :: (h ++ [':'])) ++ intRepr lp := by simp
  have hrev : ∃ c t, (intRepr rp ++ ' ' :: (h ++ ':' :: intRepr lp) : Str).reverse = c :: t ∧
      isPySpace c = false := by
    rw [hassoc]
    exact rev_cons_append (intRepr_ne_nil lp) (intRepr_not_space lp)
  have hnocc : containsSub (intRepr rp ++ ' ' :: (h ++ ':' :: intRepr lp)) remoteFKw = false :=
    containsSub_sep_mid_false 'R' (ofStr "emoteForward ")
      (by decide) (by decide) hd hrest
  have hstrip : pyStrip (rfLine (rp, h, lp)) =
      remoteFKw ++ (intRepr rp ++ ' ' :: (h ++ ':' :: intRepr lp)) :=
    pyStrip_line (ofStr "    ") 'R' (ofStr "emoteForward ")
      (intRepr rp ++ ' ' :: (h ++ ':' :: intRepr lp)) (by decide) (by decide) hrev
  have hsplit : pySplit (remoteFKw ++ (intRepr rp ++ ' ' :: (h ++ ':' :: intRepr lp))) remoteFKw =
      [[], intRepr rp ++ ' ' :: (h ++ ':' :: intRepr lp)] :=
    pySplit_kw 'R' (ofStr "emoteForward ") _ hnocc
  have hvstrip : pyStrip (intRepr rp ++ ' ' :: (h ++ ':' :: intRepr lp)) =
      intRepr rp ++ ' ' :: (h ++ ':' :: intRepr lp) := by
    obtain ⟨c0, t0, hlp⟩ := List.exists_cons_of_ne_nil (intRepr_ne_nil rp)
    refine pyStrip_eq_of ?_ ?_
    · rw [hlp, List.cons_append]
      exact dropWhile_cons_of_false
        (intRepr_not_space rp c0 (hlp ▸ List.mem_cons_self c0 t0))
    · obtain ⟨c, t, hrv, hc⟩ := hrev
      rw [hrv]
      exact dropWhile_cons_of_false hc
  have hws : pySplitWs (intRepr rp ++ ' ' :: (h ++ ':' :: intRepr lp)) =
      [intRepr rp, h ++ ':' :: intRepr lp] :=
    pySplitWs_two (intRepr_ne_nil rp) (intRepr_not_space rp) hrestne hrest
  have hnm : (':' : Char) ∉ intRepr lp := by
    intro hmem
    exact (intRepr_ne_mem lp (by decide) (by decide) ':' hmem) rfl
  have hcolon : pySplit (h ++ ':' :: intRepr lp) (ofStr ":") = [h, intRepr lp] := by
    rw [show (ofStr ":" : Str) = [':'] from rfl, pySplit_single, pySplitC_sep_append,
      pySplitC_of_not_mem (goodStr_not_mem hg (by decide)), pySplitC_of_not_mem hnm]
    rfl
  have hne2 : ((remoteFKw ++ (intRepr rp ++ ' ' :: (h ++ ':' :: intRepr lp)) : Str) == []) =
      false := by
    rw [beq_eq_false_iff_ne]
    show ('R' :: _ : Str) ≠ []
    exact List.cons_ne_nil _ _
  simp only [processLine, hstrip, hne2, Bool.false_eq_true, if_false,
    show startsW (remoteFKw ++ (intRepr rp ++ ' ' :: (h ++ ':' :: intRepr lp)))
      (ofStr "#") = false from rfl,
    show startsW (remoteFKw ++ (intRepr rp ++ ' ' :: (h ++ ':' :: intRepr lp)))
      hostKw = false from rfl, Bool.false_and,
    show startsW (remoteFKw ++ (intRepr rp ++ ' ' :: (h ++ ':' :: intRepr lp)))
      hostNameKw = false from rfl,
    show startsW (remoteFKw ++ (intRepr rp ++ ' ' :: (h ++ ':' :: intRepr lp)))
      userKw = false from rfl,
    show startsW (remoteFKw ++ (intRepr rp ++ ' ' :: (h ++ ':' :: intRepr lp)))
      portKw = false from rfl,
    show startsW (remoteFKw ++ (intRepr rp ++ ' ' :: (h ++ ':' :: intRepr lp)))
      identityKw = false from rfl,
    show startsW (remoteFKw ++ (intRepr rp ++ ' ' :: (h ++ ':' :: intRepr lp)))
      proxyKw = false from rfl,
    show startsW (remoteFKw ++ (intRepr rp ++ ' ' :: (h ++ ':' :: intRepr lp)))
      localFKw = false from rfl,
    startsW_append_self remoteFKw (intRepr rp ++ ' ' :: (h ++ ':' :: intRepr lp)), if_true,
    hsplit, show idx1 [[], intRepr rp ++ ' ' :: (h ++ ':' :: intRepr lp)] =
      intRepr rp ++ ' ' :: (h ++ ':' :: intRepr lp) from rfl,
    hvstrip, hws, pyInt_intRepr, hcolon]

/-! ## Lemmas: folding the parser over line lists -/

theorem foldlM_cons_ok {st st' : ParseSt} {l : Str} {ls : List Str}
    (h : processLine st l = .ok st') :
    List.foldlM processLine st (l :: ls) = List.foldlM processLine st' ls := by
  show (processLine st l >>= fun b => List.foldlM processLine b ls) = _
  rw [h]
  rfl

theorem foldlM_append_ok {a : List Str} : ∀ {b : List Str} {st st' : ParseSt},
    List.foldlM processLine st a = .ok st' →
    List.foldlM processLine st (a ++ b) = List.foldlM processLine st' b := by
  induction a with
  | nil =>
    intro b st st' h
    have h2 : st = st' := Except.ok.inj h
    rw [List.nil_append, h2]
  | cons l a ih =>
    intro b st st' h
    cases hres : processLine st l with
    | error e =>
      exfalso
      have h3 : List.foldlM processLine st (l :: a) =
          (processLine st l >>= fun b => List.foldlM processLine b a) := rfl
      rw [h3, hres] at h
      exact Except.noConfusion h
    | ok stm =>
      rw [List.cons_append, foldlM_cons_ok hres]
      rw [foldlM_cons_ok hres] at h
      exact ih h

theorem foldLF : ∀ (lfs : List (Int × Str × Int)) (st : ParseSt),
    (∀ f ∈ lfs, goodStr f.2.1 = true) →
    List.foldlM processLine st (lfs.map lfLine) =
      .ok { st with local_forwards := st.local_forwards ++ lfs } := by
  intro lfs
  induction lfs with
  | nil => intro st _; simp only [List.map_nil, List.append_nil]; rfl
  | cons f fs ih =>
    intro st hg
    obtain ⟨lp, h, rp⟩ := f
    rw [List.map_cons,
      foldlM_cons_ok (procLF st lp h rp (hg (lp, h, rp) (List.mem_cons_self _ _))),
      ih _ (fun x hx => hg x (List.mem_cons_of_mem _ hx))]
    simp

theorem foldRF : ∀ (rfs : List (Int × Str × Int)) (st : ParseSt),
    (∀ f ∈ rfs, goodStr f.2.1 = true) →
    List.foldlM processLine st (rfs.map rfLine) =
      .ok { st with remote_forwards := st.remote_forwards ++ rfs } := by
  intro rfs
  induction rfs with
  | nil => intro st _; simp only [List.map_nil, List.append_nil]; rfl
  | cons f fs ih =>
    intro st hg
    obtain ⟨rp, h, lp⟩ := f
    rw [List.map_cons,
      foldlM_cons_ok (procRF st rp h lp (hg (rp, h, lp) (List.mem_cons_self _ _))),
      ih _ (fun x hx => hg x (List.mem_cons_of_mem _ hx))]
    simp

theorem parse_toLines (r : Connection)
    (hname : r.name ≠ []) (hgname : goodStr r.name = true)
    (hhost : r.hostname ≠ []) (hghost : goodStr r.hostname = true)
    (huser : r.user ≠ []) (hguser : goodStr r.user = true)
    (hgid : goodStr r.identity_file = true)
    (hgpj : goodStr r.proxy_jump = true)
    (hlf : ∀ f ∈ r.local_forwards, goodStr f.2.1 = true)
    (hrf : ∀ f ∈ r.remote_forwards, goodStr f.2.1 = true) :
    List.foldlM processLine (initSt r.name) (toLines r ++ [[]]) =
      .ok { name := r.name, hostname := r.hostname, user := r.user, port := r.port,
            identity_file := r.identity_file, proxy_jump := r.proxy_jump,
            local_forwards := r.local_forwards, remote_forwards := r.remote_forwards } := by
  have hsegmeta : ∀ st : ParseSt,
      List.foldlM processLine st
        (if r.color_tag ≠ [] then [metaLine r.color_tag, []] else []) = .ok st := by
    intro st
    by_cases hc : r.color_tag = []
    · rw [if_neg (by simp [hc])]; rfl
    · rw [if_pos hc, foldlM_cons_ok (procMeta st r.color_tag),
        foldlM_cons_ok (procBlank st)]
      rfl
  have hsegid : ∀ st : ParseSt, st.identity_file = [] →
      List.foldlM processLine st
        (if r.identity_file ≠ [] then [ofStr "    IdentityFile " ++ r.identity_file] else []) =
        .ok { st with identity_file := r.identity_file } := by
    intro st hid
    by_cases hc : r.identity_file = []
    · rw [if_neg (by simp [hc])]
      have he : { st with identity_file := r.identity_file } = st := by
        rw [hc]; cases st; simp_all
      rw [he]; rfl
    · rw [if_pos hc, foldlM_cons_ok (procIdentity st r.identity_file hc hgid)]
      rfl
  have hsegpj : ∀ st : ParseSt, st.proxy_jump = [] →
      List.foldlM processLine st
        (if r.proxy_jump ≠ [] then [ofStr "    ProxyJump " ++ r.proxy_jump] else []) =
        .ok { st with proxy_jump := r.proxy_jump } := by
    intro st hpj
    by_cases hc : r.proxy_jump = []
    · rw [if_neg (by simp [hc])]
      have he : { st with proxy_jump := r.proxy_jump } = st := by
        rw [hc]; cases st; simp_all
      rw [he]; rfl
    · rw [if_pos hc, foldlM_cons_ok (procProxy st r.proxy_jump hc hgpj)]
      rfl
  simp only [toLines, List.append_assoc, List.cons_append, List.nil_append]
  rw [foldlM_append_ok (hsegmeta (initSt r.name))]
  rw [foldlM_cons_ok (procHost (initSt r.name) r.name hname hname hgname)]
  rw [foldlM_cons_ok (procHostName (initSt r.name) r.hostname hhost hghost)]
  rw [foldlM_cons_ok (procUser _ r.user huser hguser)]
  rw [foldlM_cons_ok (procPort _ r.port)]
  rw [foldlM_append_ok (hsegid _ rfl)]
  rw [foldlM_append_ok (hsegpj _ rfl)]
  rw [foldlM_append_ok (foldLF r.local_forwards _ hlf)]
  rw [foldlM_append_ok (foldRF r.remote_forwards _ hrf)]
  rw [foldlM_cons_ok (procKA1 _), foldlM_cons_ok (procKA2 _), foldlM_cons_ok (procKA3 _),
    foldlM_cons_ok (procBlank _)]
  rfl

/-! ## Lemmas: characters occurring in emitted lines -/

theorem line_chars_lit {v : Str} (hv : goodStr v = true) {lit : Str}
    (hl : ∀ c ∈ lit, (simpleChar c || c.isDigit || c == ' ' || c == ':') = true) :
    ∀ c ∈ lit ++ v, (simpleChar c || c.isDigit || c == ' ' || c == ':') = true := by
  intro c hc
  rcases List.mem_append.mp hc with h1 | h1
  · exact hl c h1
  · rw [goodStr_mem hv c h1]
    rfl

theorem intRepr_ok_chars (n : Int) :
    ∀ c ∈ intRepr n, (simpleChar c || c.isDigit || c == ' ' || c == ':') = true := by
  intro c hc
  rcases intRepr_chars n c hc with h | h
  · rw [h]; simp
  · rw [h]; rfl

theorem lfLine_chars (f : Int × Str × Int) (hg : goodStr f.2.1 = true) :
    ∀ c ∈ lfLine f, (simpleChar c || c.isDigit || c == ' ' || c == ':') = true := by
  intro c hc
  unfold lfLine at hc
  rcases List.mem_append.mp hc with h1 | h1
  · exact (by decide : ∀ c ∈ ofStr "    LocalForward ",
      (simpleChar c || c.isDigit || c == ' ' || c == ':') = true) c h1
  rcases List.mem_append.mp h1 with h2 | h2
  · exact intRepr_ok_chars _ c h2
  rcases List.mem_cons.mp h2 with h3 | h3
  · rw [h3]; rfl
  rcases List.mem_append.mp h3 with h4 | h4
  · rw [goodStr_mem hg c h4]; rfl
  rcases List.mem_cons.mp h4 with h5 | h5
  · rw [h5]; rfl
  · exact intRepr_ok_chars _ c h5

theorem rfLine_chars (f : Int × Str × Int) (hg : goodStr f.2.1 = true) :
    ∀ c ∈ rfLine f, (simpleChar c || c.isDigit || c == ' ' || c == ':') = true := by
  intro c hc
  unfold rfLine at hc
  rcases List.mem_append.mp hc with h1 | h1
  · exact (by decide : ∀ c ∈ ofStr "    RemoteForward ",
      (simpleChar c || c.isDigit || c == ' ' || c == ':') = true) c h1
  rcases List.mem_append.mp h1 with h2 | h2
  · exact intRepr_ok_chars _ c h2
  rcases List.mem_cons.mp h2 with h3 | h3
  · rw [h3]; rfl
  rcases List.mem_append.mp h3 with h4 | h4
  · rw [goodStr_mem hg c h4]; rfl
  rcases List.mem_cons.mp h4 with h5 | h5
  · rw [h5]; rfl
  · exact intRepr_ok_chars _ c h5

theorem metaLine_chars {tag : Str} (hg : goodStr tag = true) :
    ∀ c ∈ metaLine tag,
      (simpleChar c || c == '#' || c == ' ' || c == ':' || c == '"' || c == '\x7b' ||
        c == '\x7d') = true := by
  intro c hc
  unfold metaLine jsonColorDump at hc
  rcases List.mem_append.mp hc with h1 | h1
  · exact (by decide : ∀ c ∈ metaPre,
      (simpleChar c || c == '#' || c == ' ' || c == ':' || c == '"' || c == '\x7b' ||
        c == '\x7d') = true) c h1
  rcases List.mem_append.mp h1 with h2 | h2
  rcases List.mem_append.mp h2 with h3 | h3
  · exact (by decide : ∀ c ∈ ofStr "\x7b\"color\": \"",
      (simpleChar c || c == '#' || c == ' ' || c == ':' || c == '"' || c == '\x7b' ||
        c == '\x7d') = true) c h3
  · rw [goodStr_mem hg c h3]; rfl
  · exact (by decide : ∀ c ∈ ofStr "\"\x7d",
      (simpleChar c || c == '#' || c == ' ' || c == ':' || c == '"' || c == '\x7b' ||
        c == '\x7d') = true) c h2

theorem toLines_chars (r : Connection)
    (hgname : goodStr r.name = true) (hghost : goodStr r.hostname = true)
    (hguser : goodStr r.user = true) (hgid : goodStr r.identity_file = true)
    (hgpj : goodStr r.proxy_jump = true)
    (hlf : ∀ f ∈ r.local_forwards, goodStr f.2.1 = true)
    (hrf : ∀ f ∈ r.remote_forwards, goodStr f.2.1 = true) :
    ∀ l ∈ toLines r, (r.color_tag ≠ [] ∧ (l = metaLine r.color_tag ∨ l = [])) ∨
      ∀ c ∈ l, (simpleChar c || c.isDigit || c == ' ' || c == ':') = true := by
  intro l hl
  unfold toLines at hl
  rcases List.mem_append.mp hl with h1 | h1
  · by_cases hc : r.color_tag = []
    · rw [if_neg (by simp [hc])] at h1
      cases h1
    · rw [if_pos hc] at h1
      rcases List.mem_cons.mp h1 with h2 | h2
      · exact Or.inl ⟨hc, Or.inl h2⟩
      · rcases List.mem_cons.mp h2 with h3 | h3
        · exact Or.inl ⟨hc, Or.inr h3⟩
        · cases h3
  · right
    rcases List.mem_append.mp h1 with h2 | h2
    swap
    · rcases List.mem_cons.mp h2 with h3 | h3
      · rw [h3]; decide
      rcases List.mem_cons.mp h3 with h4 | h4
      · rw [h4]; decide
      rcases List.mem_cons.mp h4 with h5 | h5
      · rw [h5]; decide
      · cases h5
    rcases List.mem_append.mp h2 with h3 | h3
    swap
    · rcases List.mem_map.mp h3 with ⟨f, hf, hfl⟩
      rw [← hfl]
      exact rfLine_chars f (hrf f hf)
    rcases List.mem_append.mp h3 with h4 | h4
    swap
    · rcases List.mem_map.mp h4 with ⟨f, hf, hfl⟩
      rw [← hfl]
      exact lfLine_chars f (hlf f hf)
    rcases List.mem_append.mp h4 with h5 | h5
    swap
    · by_cases hc : r.proxy_jump = []
      · rw [if_neg (by simp [hc])] at h5
        cases h5
      · rw [if_pos hc] at h5
        rcases List.mem_cons.mp h5 with h6 | h6
        · rw [h6]
          exact line_chars_lit hgpj (by decide)
        · cases h6
    rcases List.mem_append.mp h5 with h6 | h6
    swap
    · by_cases hc : r.identity_file = []
      · rw [if_neg (by simp [hc])] at h6
        cases h6
      · rw [if_pos hc] at h6
        rcases List.mem_cons.mp h6 with h7 | h7
        · rw [h7]
          exact line_chars_lit hgid (by decide)
        · cases h7
    rcases List.mem_cons.mp h6 with h7 | h7
    · rw [h7]
      exact line_chars_lit hgname (by decide)
    rcases List.mem_cons.mp h7 with h8 | h8
    · rw [h8]
      exact line_chars_lit hghost (by decide)
    rcases List.mem_cons.mp h8 with h9 | h9
    · rw [h9]
      exact line_chars_lit hguser (by decide)
    rcases List.mem_cons.mp h9 with h10 | h10
    · rw [h10]
      intro c hc
      rcases List.mem_append.mp hc with hx | hx
      · exact (by decide : ∀ c ∈ ofStr "    Port ",
          (simpleChar c || c.isDigit || c == ' ' || c == ':') = true) c hx
      · exact intRepr_ok_chars _ c hx
    · cases h10

theorem toLines_nlFree (r : Connection)
    (hgname : goodStr r.name = true) (hghost : goodStr r.hostname = true)
    (hguser : goodStr r.user = true) (hgid : goodStr r.identity_file = true)
    (hgpj : goodStr r.proxy_jump = true) (hgtag : goodStr r.color_tag = true)
    (hlf : ∀ f ∈ r.local_forwards, goodStr f.2.1 = true)
    (hrf : ∀ f ∈ r.remote_forwards, goodStr f.2.1 = true) :
    ∀ l ∈ toLines r, ('\n' : Char) ∉ l := by
  intro l hl
  rcases toLines_chars r hgname hghost hguser hgid hgpj hlf hrf l hl with ⟨_, hm | hm⟩ | hok
  · rw [hm]
    intro hmem
    exact absurd (metaLine_chars hgtag '\n' hmem) (by decide)
  · rw [hm]
    exact List.not_mem_nil '\n'
  · intro hmem
    exact absurd (hok '\n' hmem) (by decide)

theorem toLines_ne_nil (r : Connection) : toLines r ≠ [] := by
  unfold toLines
  intro h
  rcases List.append_eq_nil.mp h with ⟨_, h2⟩
  rcases List.append_eq_nil.mp h2 with ⟨h3, _⟩
  rcases List.append_eq_nil.mp h3 with ⟨h4, _⟩
  rcases List.append_eq_nil.mp h4 with ⟨h5, _⟩
  rcases List.append_eq_nil.mp h5 with ⟨h6, _⟩
  rcases List.append_eq_nil.mp h6 with ⟨h7, _⟩
  exact List.cons_ne_nil _ _ h7

theorem hash_not_in_config (r : Connection) (hc : r.color_tag = [])
    (hgname : goodStr r.name = true) (hghost : goodStr r.hostname = true)
    (hguser : goodStr r.user = true) (hgid : goodStr r.identity_file = true)
    (hgpj : goodStr r.proxy_jump = true)
    (hlf : ∀ f ∈ r.local_forwards, goodStr f.2.1 = true)
    (hrf : ∀ f ∈ r.remote_forwards, goodStr f.2.1 = true) :
    ('#' : Char) ∉ to_ssh_config r := by
  unfold to_ssh_config
  intro hmem
  rcases List.mem_append.mp hmem with h1 | h1
  · rcases mem_joinNl h1 with h2 | ⟨l, hl, hcl⟩
    · exact absurd h2 (by decide)
    · rcases toLines_chars r hgname hghost hguser hgid hgpj hlf hrf l hl with ⟨hne, _⟩ | hok
      · exact hne hc
      · exact absurd (hok '#' hcl) (by decide)
  · rcases List.mem_singleton.mp h1 with h2
    exact absurd h2 (by decide)

/-! ## Lemmas: metadata search and the extracted color -/

theorem searchMeta_none : ∀ {content : Str}, ('#' : Char) ∉ content →
    searchMeta content = none := by
  intro content
  induction content with
  | nil => intro _; rfl
  | cons c s ih =>
    intro h
    have hc : (c == '#') = false := by
      simp only [beq_eq_false_iff_ne, ne_eq]
      intro he
      exact h (he ▸ List.mem_cons_self c s)
    have hsw : startsW (c :: s) metaPat = false := by
      have e : startsW (c :: s) metaPat =
          ((c == '#') && startsW s (ofStr " SSH Manager Metadata: " ++ ['\x7b'])) := rfl
      rw [e, hc, Bool.false_and]
    simp only [searchMeta, hsw, Bool.false_eq_true, if_false]
    exact ih (fun hm => h (List.mem_cons_of_mem c hm))

theorem takeWhile_append_stop {p : Char → Bool} : ∀ {a : Str} {x : Char} {b : Str},
    (∀ c ∈ a, p c = true) → p x = false →
    (a ++ x :: b).takeWhile p = a := by
  intro a
  induction a with
  | nil =>
    intro x b _ hx
    rw [List.nil_append, List.takeWhile_cons, hx]
    simp
  | cons c a ih =>
    intro x b ha hx
    rw [List.cons_append, List.takeWhile_cons, ha c (List.mem_cons_self c a)]
    simp only [if_true, List.cons.injEq, true_and]
    exact ih (fun d hd => ha d (List.mem_cons_of_mem c hd)) hx

theorem uptoLastBrace_last : ∀ {y : Str}, ('\x7d' : Char) ∉ y →
    uptoLastBrace (y ++ ['\x7d']) = some (y ++ ['\x7d']) := by
  intro y
  induction y with
  | nil => intro _; rfl
  | cons c t ih =>
    intro h
    rw [List.cons_append]
    show (match uptoLastBrace (t ++ ['\x7d']) with
      | some r => some (c :: r)
      | none => if c == '\x7d' then some [c] else none) = _
    rw [ih (fun hm => h (List.mem_cons_of_mem c hm))]

theorem searchMeta_meta (tag rest : Str) (hg : goodStr tag = true) :
    searchMeta (metaLine tag ++ '\n' :: rest) =
      some ('\x7b' :: ((ofStr "\"color\": \"" ++ (tag ++ ['"'])) ++ ['\x7d'])) := by
  have hsw : startsW (metaLine tag ++ '\n' :: rest) metaPat = true :=
    startsW_append_self metaPat
      (ofStr "\"color\": \"" ++ ((tag ++ ofStr "\"\x7d") ++ ('\n' :: rest)))
  have hstep : searchMeta (metaLine tag ++ '\n' :: rest) =
      if startsW (metaLine tag ++ '\n' :: rest) metaPat then
        (match uptoLastBrace
            (((metaLine tag ++ '\n' :: rest).drop metaPat.length).takeWhile
              (fun ch => !(ch == '\n'))) with
         | some grp => some ('\x7b' :: grp)
         | none => searchMeta (ofStr " SSH Manager Metadata: \x7b\"color\": \"" ++
             ((tag ++ ofStr "\"\x7d") ++ ('\n' :: rest))))
      else searchMeta (ofStr " SSH Manager Metadata: \x7b\"color\": \"" ++
        ((tag ++ ofStr "\"\x7d") ++ ('\n' :: rest))) := rfl
  have hdrop : (metaLine tag ++ '\n' :: rest).drop metaPat.length =
      ofStr "\"color\": \"" ++ ((tag ++ ofStr "\"\x7d") ++ ('\n' :: rest)) :=
    List.drop_left metaPat _
  have hassoc1 : ofStr "\"color\": \"" ++ ((tag ++ ofStr "\"\x7d") ++ ('\n' :: rest)) =
      (ofStr "\"color\": \"" ++ (tag ++ ofStr "\"\x7d")) ++ ('\n' :: rest) := by
    simp
  have htake : ((ofStr "\"color\": \"" ++ (tag ++ ofStr "\"\x7d")) ++
      ('\n' :: rest)).takeWhile (fun ch => !(ch == '\n')) =
      ofStr "\"color\": \"" ++ (tag ++ ofStr "\"\x7d") := by
    refine takeWhile_append_stop ?_ (by decide)
    intro c hc
    rcases List.mem_append.mp hc with h1 | h1
    · exact (by decide : ∀ c ∈ ofStr "\"color\": \"", (!(c == '\n')) = true) c h1
    rcases List.mem_append.mp h1 with h2 | h2
    · rw [Bool.not_eq_true', beq_eq_false_iff_ne]
      exact goodStr_ne_mem hg (by decide) c h2
    · exact (by decide : ∀ c ∈ ofStr "\"\x7d", (!(c == '\n')) = true) c h2
  have hassoc2 : ofStr "\"color\": \"" ++ (tag ++ ofStr "\"\x7d") =
      (ofStr "\"color\": \"" ++ (tag ++ ['"'])) ++ ['\x7d'] := by
    rw [show (ofStr "\"\x7d" : Str) = '"' :: ['\x7d'] from rfl]
    simp
  have hy : ('\x7d' : Char) ∉ ofStr "\"color\": \"" ++ (tag ++ ['"']) := by
    intro hm
    rcases List.mem_append.mp hm with h1 | h1
    · exact absurd h1 (by decide)
    rcases List.mem_append.mp h1 with h2 | h2
    · exact absurd (goodStr_mem hg _ h2) (by decide)
    · exact absurd h2 (by decide)
  rw [hstep, if_pos hsw, hdrop, hassoc1, htake, hassoc2, uptoLastBrace_last hy]

theorem parseColorJson_group {tag : Str} (hg : goodStr tag = true) :
    parseColorJson ('\x7b' :: ((ofStr "\"color\": \"" ++ (tag ++ ['"'])) ++ ['\x7d'])) =
      tag := by
  have h1 : startsW ('\x7b' :: ((ofStr "\"color\": \"" ++ (tag ++ ['"'])) ++ ['\x7d']))
      jsonPre = true :=
    startsW_append_self jsonPre ((tag ++ ['"']) ++ ['\x7d'])
  have hdrop : ('\x7b' :: ((ofStr "\"color\": \"" ++ (tag ++ ['"'])) ++ ['\x7d'])).drop
      jsonPre.length = (tag ++ ['"']) ++ ['\x7d'] :=
    List.drop_left jsonPre _
  have hassoc : ((tag ++ ['"']) ++ ['\x7d'] : Str) = tag ++ ('"' :: ['\x7d']) := by simp
  have htag : (tag ++ ('"' :: ['\x7d'])).takeWhile (fun ch => !(ch == '"')) = tag := by
    refine takeWhile_append_stop ?_ (by decide)
    intro c hc
    rw [Bool.not_eq_true', beq_eq_false_iff_ne]
    exact goodStr_ne_mem hg (by decide) c hc
  have hrest : (tag ++ ('"' :: ['\x7d'])).drop tag.length = '"' :: ['\x7d'] :=
    List.drop_left tag _
  have hall : tag.all (fun ch => !(ch == '\\')) = true := by
    rw [List.all_eq_true]
    intro c hc
    rw [Bool.not_eq_true', beq_eq_false_iff_ne]
    exact goodStr_ne_mem hg (by decide) c hc
  simp only [parseColorJson, h1, if_true, hdrop, hassoc, htag, hrest, hall]
  simp

theorem extractColor_config (r : Connection)
    (hgname : goodStr r.name = true) (hghost : goodStr r.hostname = true)
    (hguser : goodStr r.user = true) (hgid : goodStr r.identity_file = true)
    (hgpj : goodStr r.proxy_jump = true) (hgtag : goodStr r.color_tag = true)
    (hlf : ∀ f ∈ r.local_forwards, goodStr f.2.1 = true)
    (hrf : ∀ f ∈ r.remote_forwards, goodStr f.2.1 = true) :
    extractColor (to_ssh_config r) = r.color_tag := by
  by_cases hc : r.color_tag = []
  · have hh := hash_not_in_config r hc hgname hghost hguser hgid hgpj hlf hrf
    simp only [extractColor, searchMeta_none hh]
    exact hc.symm
  · have ht : ∃ L, toLines r = metaLine r.color_tag :: [] :: L := by
      unfold toLines
      rw [if_pos hc]
      exact ⟨_, rfl⟩
    obtain ⟨L, hL⟩ := ht
    have hcontent : to_ssh_config r =
        metaLine r.color_tag ++ '\n' :: (joinNl ([] :: L) ++ ['\n']) := by
      unfold to_ssh_config
      rw [hL, joinNl_cons _ _ (by simp)]
      simp
    rw [hcontent]
    simp only [extractColor, searchMeta_meta r.color_tag _ hgtag]
    exact parseColorJson_group hgtag

/-! ## Claim C1 -/

/-- C1: for every `Connection` record satisfying the validation invariants
(`validate r = []`) and containing no exotic characters in its string
fields, `from_ssh_config (to_ssh_config r) r.name r.folder` returns the
record unchanged in every field; the serialized text always carries the
fixed keep-alive directives, which the parser ignores. -/
theorem c1_round_trip (r : Connection)
    (hval : validate r = [])
    (hgname : goodStr r.name = true) (hghost : goodStr r.hostname = true)
    (hguser : goodStr r.user = true) (hgid : goodStr r.identity_file = true)
    (hgfolder : goodStr r.folder = true)
    (hgpj : goodStr r.proxy_jump = true) (hgtag : goodStr r.color_tag = true)
    (hlf : ∀ f ∈ r.local_forwards, goodStr f.2.1 = true)
    (hrf : ∀ f ∈ r.remote_forwards, goodStr f.2.1 = true) :
    from_ssh_config (to_ssh_config r) r.name r.folder = .ok r := by
  unfold validate at hval
  obtain ⟨h4, _⟩ := List.append_eq_nil.mp hval
  obtain ⟨h3, _⟩ := List.append_eq_nil.mp h4
  obtain ⟨h2, hU⟩ := List.append_eq_nil.mp h3
  obtain ⟨hN, hH⟩ := List.append_eq_nil.mp h2
  have hname : r.name ≠ [] := by intro h; simp [h] at hN
  have hhost : r.hostname ≠ [] := by intro h; simp [h] at hH
  have huser : r.user ≠ [] := by intro h; simp [h] at hU
  have hnl := toLines_nlFree r hgname hghost hguser hgid hgpj hgtag hlf hrf
  have hsplitc : pySplit (to_ssh_config r) (ofStr "\n") = toLines r ++ [[]] := by
    rw [show (ofStr "\n" : Str) = ['\n'] from rfl, pySplit_single]
    exact split_joinNl (toLines r) hnl (toLines_ne_nil r)
  have hnb : (r.name == ([] : Str)) = false := by
    rw [beq_eq_false_iff_ne]; exact hname
  unfold from_ssh_config
  rw [hsplitc, parse_toLines r hname hgname hhost hghost huser hguser hgid hgpj hlf hrf]
  simp only [hnb, Bool.false_eq_true, if_false,
    extractColor_config r hgname hghost hguser hgid hgpj hgtag hlf hrf]

/-- Witness for C1: the hypotheses hold and the conclusion evaluates at a
concrete fully-populated record. -/
theorem c1_round_trip_witness :
    validate rC1 = [] ∧
      from_ssh_config (to_ssh_config rC1) rC1.name rC1.folder = .ok rC1 :=
  ⟨by decide,
   c1_round_trip rC1 (by decide) (by decide) (by decide) (by decide) (by decide)
     (by decide) (by decide) (by decide) (by decide) (by decide)⟩

/-! ## Claim C2 -/

/-- C2: `validate` names the violated rule — a port of 0 or 70000 yields the
port-range message, folder `../etc` the invalid-folder message, name
`my host` the name-pattern message — and a record satisfying all §3 field
invariants validates with an empty error list. -/
theorem c2_validate (r : Connection) :
    ((r.port = 0 ∨ r.port = 70000) → msgPortRange ∈ validate r) ∧
    (r.folder = ofStr "../etc" → msgInvalidFolder ∈ validate r) ∧
    (r.name = ofStr "my host" → msgNamePattern ∈ validate r) ∧
    ((r.name ≠ [] ∧ r.name.all nameChar = true ∧ r.hostname ≠ [] ∧ r.user ≠ [] ∧
      1 ≤ r.port ∧ r.port ≤ 65535 ∧ containsSub r.folder (ofStr "..") = false ∧
      startsW r.folder (ofStr "/") = false) → validate r = []) := by
  refine ⟨?_, ?_, ?_, ?_⟩
  · intro h
    have hcond : (!(decide (1 ≤ r.port) && decide (r.port ≤ 65535))) = true := by
      rcases h with h | h <;> rw [h] <;> decide
    simp [validate, hcond]
  · intro h
    have hcond : (containsSub (ofStr "../etc") (ofStr "..") ||
        startsW (ofStr "../etc") (ofStr "/")) = true := by decide
    simp [validate, h, hcond]
  · intro h
    have h1 : ((ofStr "my host" : Str) == []) = false := by decide
    have h2 : reMatchNamePat (ofStr "my host") = false := by decide
    simp [validate, h, h1, h2]
  · rintro ⟨h1, h2, h3, h4, h5, h6, h7, h8⟩
    have ha1 : (r.name == ([] : Str)) = false := beq_eq_false_iff_ne.mpr h1
    have hie : r.name.isEmpty = false := by
      cases hie2 : r.name.isEmpty
      · rfl
      · exact absurd (List.isEmpty_iff.mp hie2) h1
    have ha2 : reMatchNamePat r.name = true := by
      unfold reMatchNamePat
      rw [hie, h2]
      rfl
    have hb : (r.hostname == ([] : Str)) = false := beq_eq_false_iff_ne.mpr h3
    have hc : (r.user == ([] : Str)) = false := beq_eq_false_iff_ne.mpr h4
    have hd : (!(decide (1 ≤ r.port) && decide (r.port ≤ 65535))) = false := by
      rw [decide_eq_true h5, decide_eq_true h6]
      rfl
    have he : (containsSub r.folder (ofStr "..") || startsW r.folder (ofStr "/")) = false := by
      rw [h7, h8]; rfl
    simp [validate, ha1, ha2, hb, hc, hd, he]

/-- Witness for C2: the four parts at concrete records. -/
theorem c2_validate_witness :
    msgPortRange ∈ validate { rC2 with port := 0 } ∧
    msgPortRange ∈ validate { rC2 with port := 70000 } ∧
    msgInvalidFolder ∈ validate { rC2 with folder := ofStr "../etc" } ∧
    msgNamePattern ∈ validate { rC2 with name := ofStr "my host" } ∧
    validate rC2 = [] :=
  ⟨(c2_validate { rC2 with port := 0 }).1 (Or.inl rfl),
   (c2_validate { rC2 with port := 70000 }).1 (Or.inr rfl),
   (c2_validate { rC2 with folder := ofStr "../etc" }).2.1 rfl,
   (c2_validate { rC2 with name := ofStr "my host" }).2.2.1 rfl,
   (c2_validate rC2).2.2.2 (by refine ⟨by decide, by decide, by decide, by decide,
     by decide, by decide, by decide, by decide⟩)⟩

/-! ## Claim C10 -/

/-- C10: `from_ssh_config` is not total — a malformed `Port` value or a
malformed port inside a two-token forward line makes the unguarded `int()`
conversion raise (modelled as `.error ()`), while forward lines with the
wrong token count are silently skipped and parsing succeeds. -/
theorem c10_parser_not_total :
    from_ssh_config (ofStr "Port abc\n") [] (ofStr "personal") = .error () ∧
    from_ssh_config (ofStr "LocalForward abc localhost:80\n") [] (ofStr "personal") =
      .error () ∧
    from_ssh_config (ofStr "LocalForward 8080 localhost:xyz\n") [] (ofStr "personal") =
      .error () ∧
    from_ssh_config (ofStr "LocalForward 8080\n") [] (ofStr "personal") =
      .ok { name := ofStr "unnamed", hostname := [], user := [], port := 22,
            identity_file := [], folder := ofStr "personal", proxy_jump := [],
            local_forwards := [], remote_forwards := [], color_tag := [] } ∧
    from_ssh_config (ofStr "LocalForward 8080 localhost 80\n") [] (ofStr "personal") =
      .ok { name := ofStr "unnamed", hostname := [], user := [], port := 22,
            identity_file := [], folder := ofStr "personal", proxy_jump := [],
            local_forwards := [], remote_forwards := [], color_tag := [] } :=
  ⟨rfl, rfl, rfl, rfl, rfl⟩

/-! ## Claim C7 -/

/-- Counterexample for C7: with a non-empty `color_tag`, the serialized text
contains the metadata comment line and the following blank line, and neither
is the `Host` line nor indented by four spaces — contradicting the claim
that every line except the `Host` line is indented by exactly 4 spaces
including the metadata comment and the blank line after it. -/
theorem c7_counterexample :
    metaLine (ofStr "production") ∈ pySplit (to_ssh_config rC7) (ofStr "\n") ∧
    metaLine (ofStr "production") ≠ hostKw ++ rC7.name ∧
    startsW (metaLine (ofStr "production")) (ofStr "    ") = false ∧
    ([] : Str) ∈ pySplit (to_ssh_config rC7) (ofStr "\n") ∧
    ([] : Str) ≠ hostKw ++ rC7.name ∧
    startsW ([] : Str) (ofStr "    ") = false := by
  decide

/-- C7 amended: in `to_ssh_config` every line is the `Host` line, the
optional metadata comment line, a blank line, or a directive line indented
by exactly 4 spaces (four spaces followed by a non-space), for records
without exotic characters in their string fields. -/
theorem c7_amended_indentation (r : Connection)
    (hgname : goodStr r.name = true) (hghost : goodStr r.hostname = true)
    (hguser : goodStr r.user = true) (hgid : goodStr r.identity_file = true)
    (hgpj : goodStr r.proxy_jump = true) (hgtag : goodStr r.color_tag = true)
    (hlf : ∀ f ∈ r.local_forwards, goodStr f.2.1 = true)
    (hrf : ∀ f ∈ r.remote_forwards, goodStr f.2.1 = true) :
    ∀ l ∈ pySplit (to_ssh_config r) (ofStr "\n"),
      l = hostKw ++ r.name ∨ l = metaLine r.color_tag ∨ l = [] ∨
      (startsW l (ofStr "    ") = true ∧ startsW l (ofStr "     ") = false) := by
  have hnl := toLines_nlFree r hgname hghost hguser hgid hgpj hgtag hlf hrf
  have hsplitc : pySplit (to_ssh_config r) (ofStr "\n") = toLines r ++ [[]] := by
    rw [show (ofStr "\n" : Str) = ['\n'] from rfl, pySplit_single]
    exact split_joinNl (toLines r) hnl (toLines_ne_nil r)
  rw [hsplitc]
  intro l hl
  rcases List.mem_append.mp hl with h1 | h1
  swap
  · exact Or.inr (Or.inr (Or.inl (List.mem_singleton.mp h1)))
  unfold toLines at h1
  rcases List.mem_append.mp h1 with h2 | h2
  · by_cases hc : r.color_tag = []
    · rw [if_neg (by simp [hc])] at h2
      cases h2
    · rw [if_pos hc] at h2
      rcases List.mem_cons.mp h2 with h3 | h3
      · exact Or.inr (Or.inl h3)
      rcases List.mem_cons.mp h3 with h4 | h4
      · exact Or.inr (Or.inr (Or.inl h4))
      · cases h4
  rcases List.mem_append.mp h2 with h3 | h3
  swap
  · right; right; right
    rcases List.mem_cons.mp h3 with h4 | h4
    · rw [h4]; exact ⟨rfl, rfl⟩
    rcases List.mem_cons.mp h4 with h5 | h5
    · rw [h5]; exact ⟨rfl, rfl⟩
    rcases List.mem_cons.mp h5 with h6 | h6
    · rw [h6]; exact ⟨rfl, rfl⟩
    · cases h6
  rcases List.mem_append.mp h3 with h4 | h4
  swap
  · rcases List.mem_map.mp h4 with ⟨f, hf, hfl⟩
    right; right; right
    rw [← hfl]
    exact ⟨rfl, rfl⟩
  rcases List.mem_append.mp h4 with h5 | h5
  swap
  · rcases List.mem_map.mp h5 with ⟨f, hf, hfl⟩
    right; right; right
    rw [← hfl]
    exact ⟨rfl, rfl⟩
  rcases List.mem_append.mp h5 with h6 | h6
  swap
  · by_cases hc : r.proxy_jump = []
    · rw [if_neg (by simp [hc])] at h6
      cases h6
    · rw [if_pos hc] at h6
      rcases List.mem_cons.mp h6 with h7 | h7
      · right; right; right
        rw [h7]
        exact ⟨rfl, rfl⟩
      · cases h7
  rcases List.mem_append.mp h6 with h7 | h7
  swap
  · by_cases hc : r.identity_file = []
    · rw [if_neg (by simp [hc])] at h7
      cases h7
    · rw [if_pos hc] at h7
      rcases List.mem_cons.mp h7 with h8 | h8
      · right; right; right
        rw [h8]
        exact ⟨rfl, rfl⟩
      · cases h8
  rcases List.mem_cons.mp h7 with h8 | h8
  · exact Or.inl h8
  rcases List.mem_cons.mp h8 with h9 | h9
  · right; right; right
    rw [h9]
    exact ⟨rfl, rfl⟩
  rcases List.mem_cons.mp h9 with h10 | h10
  · right; right; right
    rw [h10]
    exact ⟨rfl, rfl⟩
  rcases List.mem_cons.mp h10 with h11 | h11
  · right; right; right
    rw [h11]
    exact ⟨rfl, rfl⟩
  · cases h11

/-- Witness for C7's amended statement at a concrete record. -/
theorem c7_amended_witness :
    goodStr rC7.color_tag = true ∧
    ∀ l ∈ pySplit (to_ssh_config rC7) (ofStr "\n"),
      l = hostKw ++ rC7.name ∨ l = metaLine rC7.color_tag ∨ l = [] ∨
      (startsW l (ofStr "    ") = true ∧ startsW l (ofStr "     ") = false) :=
  ⟨by decide,
   c7_amended_indentation rC7 (by decide) (by decide) (by decide) (by decide)
     (by decide) (by decide) (by decide) (by decide)⟩

/-! ## Claim C8 -/

/-- Counterexample for C8: with an empty `user` field the serialized stanza
still contains a line starting with `    User` — `to_ssh_config` emits the
`User` directive unconditionally. -/
theorem c8_counterexample :
    ((pySplit (to_ssh_config rC8) (ofStr "\n")).any
      (fun l => startsW l (ofStr "    User"))) = true := by
  decide

/-- C8 amended: `Connection.to_ssh_config` always emits the `User` line,
even for an empty user; the conditional emission the claim describes exists
only in the backend variant (`user_line` in `SSHManager.add_connection`),
which emits `    User {user}` exactly when the user is non-empty. -/
theorem c8_amended_user_line :
    (∀ r : Connection, (ofStr "    User " ++ r.user) ∈ toLines r) ∧
    (∀ u : Str, user_line u = if u == [] then [] else ofStr "    User " ++ u) := by
  constructor
  · intro r
    unfold toLines
    refine List.mem_append.mpr (Or.inr ?_)
    refine List.mem_append.mpr (Or.inl ?_)
    refine List.mem_append.mpr (Or.inl ?_)
    refine List.mem_append.mpr (Or.inl ?_)
    refine List.mem_append.mpr (Or.inl ?_)
    refine List.mem_append.mpr (Or.inl ?_)
    exact List.mem_cons_of_mem _ (List.mem_cons_of_mem _ (List.mem_cons_self _ _))
  · intro u
    rfl

/-! ## Claim C3 -/

theorem nl_not_in_includeLine {bp : Str} (hbp : ('\n' : Char) ∉ bp) :
    ('\n' : Char) ∉ includeLine bp := by
  intro h
  unfold includeLine at h
  rcases List.mem_append.mp h with h1 | h1
  rcases List.mem_append.mp h1 with h2 | h2
  · exact absurd h2 (by decide)
  · exact hbp h2
  · exact absurd h1 (by decide)

theorem countInc_content_zero {bp content : Str}
    (h : containsSub content (includeLine bp) = false) : countInc bp content = 0 := by
  unfold countInc
  rw [List.countP_eq_zero]
  intro l hl
  simp only [beq_iff_eq]
  intro heq
  rw [heq] at hl
  exact absurd (containsSub_of_mem_pySplitC '\n' content _ hl) (by rw [h]; exact Bool.noConfusion)

theorem countInc_append_nl (bp a b : Str) :
    countInc bp (a ++ '\n' :: b) = countInc bp a + countInc bp b := by
  unfold countInc
  rw [pySplitC_sep_append, List.countP_append]

theorem countInc_single {bp l : Str} (hn : ('\n' : Char) ∉ l) :
    countInc bp l = (if (l == includeLine bp) = true then 1 else 0) := by
  unfold countInc
  rw [pySplitC_of_not_mem hn]
  rcases h : (l == includeLine bp) <;> simp [List.countP_cons, h]

theorem countInc_nil (bp : Str) : countInc bp [] = 0 := by
  have h : (([] : Str) == includeLine bp) = false := rfl
  rw [countInc_single (by simp), h]
  rfl

theorem countInc_hdr (bp : Str) : countInc bp hdrLine = 0 := by
  have h : ((hdrLine : Str) == includeLine bp) = false := rfl
  rw [countInc_single (by decide), h]
  rfl

theorem countInc_inc {bp : Str} (hbp : ('\n' : Char) ∉ bp) :
    countInc bp (includeLine bp) = 1 := by
  rw [countInc_single (nl_not_in_includeLine hbp), beq_self_eq_true]
  rfl

theorem add_include_count (bp : Str) (hbp : ('\n' : Char) ∉ bp) (cfg : Option Str)
    (h : cfg = none ∨ ∃ c, cfg = some c ∧ containsSub c (includeLine bp) = false) :
    countInc bp (add_include_statement bp cfg).1 = 1 ∧
    containsSub (add_include_statement bp cfg).1 (includeLine bp) = true := by
  rcases h with h | ⟨c, hc, hcc⟩
  · subst h
    constructor
    · show countInc bp (hdrLine ++ '\n' :: (includeLine bp ++ ['\n'])) = 1
      rw [countInc_append_nl, countInc_hdr,
        show (includeLine bp ++ ['\n'] : Str) = includeLine bp ++ '\n' :: [] from rfl,
        countInc_append_nl, countInc_inc hbp, countInc_nil]
    · show containsSub (hdrLine ++ '\n' :: (includeLine bp ++ ['\n'])) (includeLine bp) = true
      rw [show (hdrLine ++ '\n' :: (includeLine bp ++ ['\n']) : Str) =
        (hdrLine ++ ['\n']) ++ (includeLine bp ++ ['\n']) from by simp]
      exact containsSub_append_mid _ _ _
  · subst hc
    show countInc bp (add_include_statement bp (some c)).1 = 1 ∧ _
    have hform : (add_include_statement bp (some c)).1 =
        (if c.getLast? == some '\n' then c else c ++ ['\n']) ++
          '\n' :: (hdrLine ++ '\n' :: (includeLine bp ++ ['\n'])) := by
      unfold add_include_statement
      simp only [hcc, Bool.false_eq_true, if_false]
    rw [hform]
    constructor
    · rw [countInc_append_nl, countInc_append_nl,
        show (includeLine bp ++ ['\n'] : Str) = includeLine bp ++ '\n' :: [] from rfl,
        countInc_append_nl, countInc_inc hbp, countInc_nil, countInc_hdr]
      have hC : countInc bp (if c.getLast? == some '\n' then c else c ++ ['\n']) = 0 := by
        by_cases hg : (c.getLast? == some '\n') = true
        · rw [if_pos hg]
          exact countInc_content_zero hcc
        · rw [if_neg hg,
            show (c ++ ['\n'] : Str) = c ++ '\n' :: [] from rfl,
            countInc_append_nl, countInc_content_zero hcc, countInc_nil]
      rw [hC]
    · rw [show ((if c.getLast? == some '\n' then c else c ++ ['\n']) ++
          '\n' :: (hdrLine ++ '\n' :: (includeLine bp ++ ['\n'])) : Str) =
          ((if c.getLast? == some '\n' then c else c ++ ['\n']) ++
            ('\n' :: hdrLine ++ ['\n'])) ++ (includeLine bp ++ ['\n']) from by simp]
      exact containsSub_append_mid _ _ _

/-- C3: starting from an absent primary SSH config, or one that does not yet
contain the SSH Manager Include line, any number `n ≥ 1` of consecutive
`initialize()` calls (in particular three) leaves the config with exactly
one line equal to the Include line: repeated initialization never
duplicates it. -/
theorem c3_include_idempotent (bp : Str) (hbp : ('\n' : Char) ∉ bp) (cfg0 : Option Str)
    (h0 : cfg0 = none ∨ ∃ c, cfg0 = some c ∧ containsSub c (includeLine bp) = false) :
    ∀ n, 1 ≤ n → ∃ s, initIncludeIter bp n cfg0 = some s ∧ countInc bp s = 1 := by
  have hstable : ∀ (m : Nat) (s : Str), containsSub s (includeLine bp) = true →
      initIncludeIter bp m (some s) = some s := by
    intro m
    induction m with
    | zero => intro s _; rfl
    | succ k ih =>
      intro s hs
      show initIncludeIter bp k (some (add_include_statement bp (some s)).1) = some s
      have he : (add_include_statement bp (some s)).1 = s := by
        unfold add_include_statement
        simp [hs]
      rw [he]
      exact ih s hs
  intro n hn
  match n with
  | m + 1 =>
    show ∃ s, initIncludeIter bp m (some (add_include_statement bp cfg0).1) = some s ∧ _
    obtain ⟨hcount, hcontains⟩ := add_include_count bp hbp cfg0 h0
    exact ⟨_, hstable m _ hcontains, hcount⟩

/-- Witness for C3: three initializations starting from no config file. -/
theorem c3_include_idempotent_witness :
    ∃ s, initIncludeIter (ofStr "/home/u/ssh_manager/groups") 3 none = some s ∧
      countInc (ofStr "/home/u/ssh_manager/groups") s = 1 :=
  c3_include_idempotent (ofStr "/home/u/ssh_manager/groups") (by decide) none
    (Or.inl rfl) 3 (by decide)

/-! ## Claim C4 -/

/-- C4: when a file named `<conn.name>.conf` already exists in the
destination folder, `move_connection` raises (the conflict error when the
source exists, the not-found error when it does not) and returns the
filesystem and the connection record completely unchanged — no file is
touched and `conn.folder` keeps its value. -/
theorem c4_move_conflict (fs : FS) (conn : Connection) (nf : Str)
    (h : (dictGet fs.files (pathOf nf conn.name)).isSome = true) :
    ∃ e, move_connection fs conn nf = (fs, conn, some e) := by
  unfold move_connection
  by_cases hsrc : (dictGet fs.files (pathOf conn.folder conn.name)).isNone = true
  · exact ⟨.srcNotFound, by rw [if_pos hsrc]⟩
  · refine ⟨.destExists, ?_⟩
    have hsrc' : (dictGet fs.files (pathOf conn.folder conn.name)).isNone = false := by
      cases hd : dictGet fs.files (pathOf conn.folder conn.name)
      · exact absurd (by rw [hd]; rfl) hsrc
      · rfl
    rw [if_neg (by rw [hsrc']; exact Bool.noConfusion), if_pos h]

/-- Witness for C4 at a concrete two-file filesystem. -/
theorem c4_move_conflict_witness :
    (dictGet fsC4.files (pathOf (ofStr "personal") (ofStr "A"))).isSome = true ∧
    ∃ e, move_connection fsC4 { rC2 with name := ofStr "A", folder := ofStr "work" }
      (ofStr "personal") =
      (fsC4, { rC2 with name := ofStr "A", folder := ofStr "work" }, some e) :=
  ⟨by decide,
   c4_move_conflict fsC4 { rC2 with name := ofStr "A", folder := ofStr "work" }
     (ofStr "personal") (by decide)⟩

/-! ## Claim C5 -/

theorem dictGet_filter_self : ∀ (fs : List (Str × Str)) (p : Str),
    dictGet (fs.filter (fun e => !(e.1 == p))) p = none := by
  intro fs p
  induction fs with
  | nil => rfl
  | cons e t ih =>
    by_cases he : (e.1 == p) = true
    · rw [List.filter_cons_of_neg (by simp [he])]
      exact ih
    · rw [List.filter_cons_of_pos (by simp [he])]
      show (if (e.1 == p) = true then some e.2 else _) = none
      rw [if_neg he]
      exact ih

theorem dictGet_filter_other : ∀ (fs : List (Str × Str)) (p q : Str), q ≠ p →
    dictGet (fs.filter (fun e => !(e.1 == p))) q = dictGet fs q := by
  intro fs p q hq
  induction fs with
  | nil => rfl
  | cons e t ih =>
    by_cases he : (e.1 == p) = true
    · rw [List.filter_cons_of_neg (by simp [he])]
      have heq : (e.1 == q) = false := by
        rw [beq_eq_false_iff_ne]
        intro h2
        exact hq (by rw [← h2, beq_iff_eq.mp he])
      show _ = (if (e.1 == q) = true then some e.2 else dictGet t q)
      rw [if_neg (by rw [heq]; exact Bool.noConfusion)]
      exact ih
    · rw [List.filter_cons_of_pos (by simp [he])]
      show (if (e.1 == q) = true then some e.2 else _) =
        (if (e.1 == q) = true then some e.2 else dictGet t q)
      by_cases h2 : (e.1 == q) = true
      · rw [if_pos h2, if_pos h2]
      · rw [if_neg h2, if_neg h2]
        exact ih

/-- Counterexample for C5: `FileUtils.delete_config_file` on an absent file
does not raise a not-found error — it silently succeeds and leaves the
(empty) store unchanged, contradicting the claim that both variants raise. -/
theorem c5_counterexample :
    delete_config_file [] (ofStr "work") (ofStr "A") = .ok [] := rfl

/-- C5 amended: `ConfigManager.delete_connection` raises a not-found error
when the file is absent and removes exactly that file when present;
`FileUtils.delete_config_file` also removes exactly the file when present,
but silently does nothing when the file is absent. -/
theorem c5_delete_behavior :
    (∀ (fs : List (Str × Str)) (folder name : Str),
      dictGet fs (pathOf folder name) = none →
        delete_connection fs folder name = (fs, some .notFound)) ∧
    (∀ (fs : List (Str × Str)) (folder name : Str),
      (dictGet fs (pathOf folder name)).isSome = true →
        (delete_connection fs folder name).2 = none ∧
        dictGet (delete_connection fs folder name).1 (pathOf folder name) = none ∧
        ∀ q, q ≠ pathOf folder name →
          dictGet (delete_connection fs folder name).1 q = dictGet fs q) ∧
    (∀ (fs : List (Str × Str)) (g name p : Str), fu_connection_path g name = .ok p →
      (dictGet fs p = none → delete_config_file fs g name = .ok fs) ∧
      ((dictGet fs p).isSome = true →
        delete_config_file fs g name = .ok (fs.filter (fun e => !(e.1 == p))) ∧
        dictGet (fs.filter (fun e => !(e.1 == p))) p = none ∧
        ∀ q, q ≠ p → dictGet (fs.filter (fun e => !(e.1 == p))) q = dictGet fs q)) := by
  refine ⟨?_, ?_, ?_⟩
  · intro fs folder name h
    unfold delete_connection
    rw [if_pos (by rw [h]; rfl)]
  · intro fs folder name h
    have hn : (dictGet fs (pathOf folder name)).isNone = false := by
      cases hd : dictGet fs (pathOf folder name)
      · rw [hd] at h; exact absurd h (by decide)
      · rfl
    unfold delete_connection
    rw [if_neg (by rw [hn]; exact Bool.noConfusion)]
    exact ⟨rfl, dictGet_filter_self fs _, fun q hq => dictGet_filter_other fs _ q hq⟩
  · intro fs g name p hp
    have hred : delete_config_file fs g name =
        (if (dictGet fs p).isSome = true then .ok (fs.filter (fun e => !(e.1 == p)))
         else .ok fs) := by
      unfold delete_config_file
      rw [hp]
    constructor
    · intro h
      rw [hred, if_neg (by rw [h]; simp)]
    · intro h
      rw [hred, if_pos h]
      exact ⟨rfl, dictGet_filter_self fs p, fun q hq => dictGet_filter_other fs p q hq⟩

/-- Witness for C5's amended statement at concrete stores. -/
theorem c5_delete_behavior_witness :
    (dictGet ([] : List (Str × Str)) (pathOf (ofStr "work") (ofStr "A")) = none ∧
      delete_connection [] (ofStr "work") (ofStr "A") = ([], some .notFound)) ∧
    ((dictGet [(pathOf (ofStr "work") (ofStr "A"), ofStr "x")]
        (pathOf (ofStr "work") (ofStr "A"))).isSome = true ∧
      (delete_connection [(pathOf (ofStr "work") (ofStr "A"), ofStr "x")]
        (ofStr "work") (ofStr "A")).2 = none) ∧
    (fu_connection_path (ofStr "work") (ofStr "A") =
        .ok (ofStr "config/work/A.conf") ∧
      delete_config_file [(ofStr "config/work/A.conf", ofStr "x")]
        (ofStr "work") (ofStr "A") = .ok []) := by
  refine ⟨⟨rfl, c5_delete_behavior.1 [] (ofStr "work") (ofStr "A") rfl⟩,
    ⟨by decide, (c5_delete_behavior.2.1 [(pathOf (ofStr "work") (ofStr "A"), ofStr "x")]
      (ofStr "work") (ofStr "A") (by decide)).1⟩,
    ⟨rfl, ?_⟩⟩
  have h := (c5_delete_behavior.2.2 [(ofStr "config/work/A.conf", ofStr "x")]
    (ofStr "work") (ofStr "A") (ofStr "config/work/A.conf") rfl).2 (by decide)
  rw [h.1]
  rfl

/-! ## Claim C6 -/

/-- C6: deleting an existing non-empty folder without the recursive flag
fails with the "not empty" error and changes nothing; with `recursive=True`
the folder and its entire subtree (files and subdirectories) are gone; and
deleting a non-existent folder raises a not-found error. -/
theorem c6_delete_folder (fs : FS) (fp : Str) :
    (fs.dirs.contains fp = true → folderNonEmpty fs fp = true →
      delete_folder fs fp false = (fs, some .notEmpty)) ∧
    (fs.dirs.contains fp = true →
      (delete_folder fs fp true).2 = none ∧
      ((delete_folder fs fp true).1.dirs.all
        (fun d => !(d == fp || isUnder fp d))) = true ∧
      ((delete_folder fs fp true).1.files.all
        (fun e => !(isUnder fp e.1))) = true) ∧
    (∀ recursive, fs.dirs.contains fp = false →
      delete_folder fs fp recursive = (fs, some .notFound)) := by
  refine ⟨?_, ?_, ?_⟩
  · intro h1 h2
    unfold delete_folder
    rw [if_neg (by rw [h1]; simp), if_pos (by rw [h2]; rfl)]
  · intro h1
    unfold delete_folder
    rw [if_neg (by rw [h1]; simp),
      if_neg (by simp), if_pos rfl]
    refine ⟨rfl, ?_, ?_⟩
    · rw [List.all_eq_true]
      intro d hd
      have hd2 : d ∈ List.filter (fun d => !(d == fp || isUnder fp d)) fs.dirs := hd
      exact List.of_mem_filter (p := fun d => !(d == fp || isUnder fp d)) hd2
    · rw [List.all_eq_true]
      intro e he
      have he2 : e ∈ List.filter (fun e => !(isUnder fp e.1)) fs.files := he
      exact List.of_mem_filter (p := fun (e : Str × Str) => !(isUnder fp e.1)) he2
  · intro recursive h1
    unfold delete_folder
    rw [if_pos (by rw [h1]; rfl)]

/-- Witness for C6 at a concrete filesystem with a non-empty folder. -/
theorem c6_delete_folder_witness :
    (fsC6.dirs.contains (ofStr "work") = true ∧
      folderNonEmpty fsC6 (ofStr "work") = true ∧
      delete_folder fsC6 (ofStr "work") false = (fsC6, some .notEmpty)) ∧
    ((delete_folder fsC6 (ofStr "work") true).2 = none ∧
      ((delete_folder fsC6 (ofStr "work") true).1.dirs.all
        (fun d => !(d == ofStr "work" || isUnder (ofStr "work") d))) = true ∧
      ((delete_folder fsC6 (ofStr "work") true).1.files.all
        (fun e => !(isUnder (ofStr "work") e.1))) = true) ∧
    delete_folder fsC6 (ofStr "missing") true = (fsC6, some .notFound) :=
  ⟨⟨by decide, by decide,
    (c6_delete_folder fsC6 (ofStr "work")).1 (by decide) (by decide)⟩,
   (c6_delete_folder fsC6 (ofStr "work")).2.1 (by decide),
   (c6_delete_folder fsC6 (ofStr "missing")).2.2 true (by decide)⟩

/-! ## Claim C9 -/

theorem exceptMapOk_isOk (X : Except Unit Str) (g : Str → Str) :
    (match X with
      | .ok out => Except.ok (g out)
      | .error e => Except.error e).isOk = X.isOk := by
  cases X <;> rfl

theorem pyFormatF_ok_iff (vars : List (Str × Str)) : ∀ (fuel : Nat) (s : Str),
    ((pyFormatF vars fuel s).isOk = true ↔
      ∃ ks, scanTemplateF fuel s = some ks ∧ ∀ k ∈ ks, (dictGet vars k).isSome = true) := by
  intro fuel
  induction fuel with
  | zero =>
    intro s
    cases s with
    | nil => simp [pyFormatF, scanTemplateF, Except.isOk, Except.toBool]
    | cons c rest => simp [pyFormatF, scanTemplateF, Except.isOk, Except.toBool]
  | succ f ih =>
    intro s
    cases s with
    | nil => simp [pyFormatF, scanTemplateF, Except.isOk, Except.toBool]
    | cons c rest =>
      by_cases hc : (c == '\x7b') = true
      · by_cases hh : (rest.head? == some '\x7b') = true
        · have hfmt : pyFormatF vars (f + 1) (c :: rest) =
              (match pyFormatF vars f (rest.drop 1) with
               | .ok out => Except.ok ('\x7b' :: out)
               | .error e => Except.error e) := by
            simp only [pyFormatF, hc, if_true, hh]
          have hscan : scanTemplateF (f + 1) (c :: rest) = scanTemplateF f (rest.drop 1) := by
            simp only [scanTemplateF, hc, if_true, hh]
          rw [hfmt, hscan, exceptMapOk_isOk]
          exact ih (rest.drop 1)
        · by_cases hcl : ((rest.drop
              (rest.takeWhile (fun ch => !(ch == '\x7d'))).length).head? ==
              some '\x7d') = true
          · have hscan : scanTemplateF (f + 1) (c :: rest) =
                (match scanTemplateF f
                    (rest.drop ((rest.takeWhile (fun ch => !(ch == '\x7d'))).length + 1)) with
                 | some ks => some ((rest.takeWhile (fun ch => !(ch == '\x7d'))) :: ks)
                 | none => none) := by
              simp only [scanTemplateF, hc, if_true, hh, Bool.false_eq_true, if_false, hcl]
            cases hv : dictGet vars (rest.takeWhile (fun ch => !(ch == '\x7d'))) with
            | none =>
              have hfmt : pyFormatF vars (f + 1) (c :: rest) = .error () := by
                simp only [pyFormatF, hc, if_true, hh, Bool.false_eq_true, if_false, hcl, hv]
              rw [hfmt]
              constructor
              · intro h
                exact absurd h (by decide)
              · rintro ⟨ks, hks, hall⟩
                rw [hscan] at hks
                cases hs2 : scanTemplateF f
                    (rest.drop ((rest.takeWhile (fun ch => !(ch == '\x7d'))).length + 1)) with
                | none =>
                  rw [hs2] at hks
                  exact Option.noConfusion hks
                | some ks2 =>
                  rw [hs2] at hks
                  have hk : (rest.takeWhile (fun ch => !(ch == '\x7d'))) :: ks2 = ks :=
                    Option.some.inj hks
                  have hmem : (rest.takeWhile (fun ch => !(ch == '\x7d'))) ∈ ks := by
                    rw [← hk]
                    exact List.mem_cons_self _ _
                  have hfalse := hall _ hmem
                  rw [hv] at hfalse
                  exact absurd hfalse (by decide)
            | some v =>
              have hfmt : pyFormatF vars (f + 1) (c :: rest) =
                  (match pyFormatF vars f
                      (rest.drop ((rest.takeWhile (fun ch => !(ch == '\x7d'))).length + 1)) with
                   | .ok out => Except.ok (v ++ out)
                   | .error e => Except.error e) := by
                simp only [pyFormatF, hc, if_true, hh, Bool.false_eq_true, if_false, hcl, hv]
              rw [hfmt, hscan, exceptMapOk_isOk,
                ih (rest.drop ((rest.takeWhile (fun ch => !(ch == '\x7d'))).length + 1))]
              cases hs2 : scanTemplateF f
                  (rest.drop ((rest.takeWhile (fun ch => !(ch == '\x7d'))).length + 1)) with
              | none => simp
              | some ks2 => simp [hv]
          · have hfmt : pyFormatF vars (f + 1) (c :: rest) = .error () := by
              simp only [pyFormatF, hc, if_true, hh, Bool.false_eq_true, if_false, hcl]
            have hscan : scanTemplateF (f + 1) (c :: rest) = none := by
              simp only [scanTemplateF, hc, if_true, hh, Bool.false_eq_true, if_false, hcl]
            rw [hfmt, hscan]
            simp [Except.isOk, Except.toBool]
      · by_cases hd : (c == '\x7d') = true
        · by_cases hh : (rest.head? == some '\x7d') = true
          · have hfmt : pyFormatF vars (f + 1) (c :: rest) =
                (match pyFormatF vars f (rest.drop 1) with
                 | .ok out => Except.ok ('\x7d' :: out)
                 | .error e => Except.error e) := by
              simp only [pyFormatF, hc, Bool.false_eq_true, if_false, hd, if_true, hh]
            have hscan : scanTemplateF (f + 1) (c :: rest) =
                scanTemplateF f (rest.drop 1) := by
              simp only [scanTemplateF, hc, Bool.false_eq_true, if_false, hd, if_true, hh]
            rw [hfmt, hscan, exceptMapOk_isOk]
            exact ih (rest.drop 1)
          · have hfmt : pyFormatF vars (f + 1) (c :: rest) = .error () := by
              simp only [pyFormatF, hc, Bool.false_eq_true, if_false, hd, if_true, hh]
            have hscan : scanTemplateF (f + 1) (c :: rest) = none := by
              simp only [scanTemplateF, hc, Bool.false_eq_true, if_false, hd, if_true, hh]
            rw [hfmt, hscan]
            simp [Except.isOk, Except.toBool]
        · have hfmt : pyFormatF vars (f + 1) (c :: rest) =
              (match pyFormatF vars f rest with
               | .ok out => Except.ok (c :: out)
               | .error e => Except.error e) := by
            simp only [pyFormatF, hc, hd, Bool.false_eq_true, if_false]
          have hscan : scanTemplateF (f + 1) (c :: rest) = scanTemplateF f rest := by
            simp only [scanTemplateF, hc, hd, Bool.false_eq_true, if_false]
          rw [hfmt, hscan, exceptMapOk_isOk]
          exact ih rest

theorem dictGet_some_mem {β : Type} : ∀ (l : List (Str × β)) (k : Str) (v : β),
    dictGet l k = some v → v ∈ l.map Prod.snd := by
  intro l
  induction l with
  | nil => intro k v h; exact Option.noConfusion h
  | cons e t ih =>
    intro k v h
    show v ∈ e.2 :: t.map Prod.snd
    by_cases he : (e.1 == k) = true
    · have h2 : some e.2 = some v := by
        rw [← h]
        exact (if_pos he).symm
      rw [← Option.some.inj h2]
      exact List.mem_cons_self _ _
    · have h2 : dictGet t k = some v := by
        rw [← h]
        exact (if_neg he).symm
      exact List.mem_cons_of_mem _ (ih k v h2)

/-- C9: `create_from_template` errors exactly when the template id is
unknown or a placeholder referenced by the template text is missing from
the variables mapping; with every referenced placeholder present it returns
the substituted text without error. -/
theorem c9_create_from_template (tid : Str) (vars : List (Str × Str)) :
    (dictGet default_templates tid = none → create_from_template tid vars = .error ()) ∧
    (∀ t, dictGet default_templates tid = some t →
      ((create_from_template tid vars).isOk = true ↔
        ∀ k ∈ refsOf t.content, (dictGet vars k).isSome = true)) := by
  constructor
  · intro h
    unfold create_from_template get_template
    rw [h]
  · intro t ht
    have hform : create_from_template tid vars = pyFormat vars t.content := by
      unfold create_from_template get_template
      rw [ht]
    rw [hform]
    have hmem := dictGet_some_mem default_templates tid t ht
    have hscan : (scanTemplate t.content).isSome = true := by
      simp only [default_templates, List.map_cons, List.map_nil] at hmem
      rcases List.mem_cons.mp hmem with h1 | h1
      · rw [h1]; decide
      rcases List.mem_cons.mp h1 with h2 | h2
      · rw [h2]; decide
      rcases List.mem_cons.mp h2 with h3 | h3
      · rw [h3]; decide
      rcases List.mem_cons.mp h3 with h4 | h4
      · rw [h4]; decide
      · cases h4
    obtain ⟨ks, hks⟩ := Option.isSome_iff_exists.mp hscan
    have hrefs : refsOf t.content = ks := by rw [refsOf, hks]; rfl
    rw [hrefs]
    have hks2 : scanTemplateF t.content.length t.content = some ks := hks
    rw [show pyFormat vars t.content = pyFormatF vars t.content.length t.content from rfl,
      pyFormatF_ok_iff vars t.content.length t.content]
    simp [hks2]

/-- Witness for C9: an unknown template id errors; instantiating
`basic-server` with a complete variable assignment succeeds. -/
theorem c9_create_from_template_witness :
    create_from_template (ofStr "nope") [] = .error () ∧
    (create_from_template (ofStr "basic-server") c9vars).isOk = true :=
  ⟨(c9_create_from_template (ofStr "nope") []).1 (by decide),
   ((c9_create_from_template (ofStr "basic-server") c9vars).2
     { name := ofStr "Basic Server",
       description := ofStr "Simple SSH connection with username and host",
       content := basicServerContent } (by decide)).mpr (by decide)⟩
